import Mathlib

/-!
Verification development for the reference-data compiler `tools/gen_data.py`
(CSV fragment merger, binary table encoder, generated validation checker and
allocation-block classifier) of the Dump1090 repository.

The Python source is shallowly embedded: byte strings become `List Nat`
(each element `< 256` by construction), `struct.pack` fields become explicit
little-endian byte lists, Python exceptions become an explicit error type,
and the file produced by the two-phase writer becomes the list of bytes that
end up on disk.

Layout: all definitions first, then all theorems.
-/

namespace GenData

/-! ## Bytes, UTF-8 and `struct.pack` primitives -/

/-- UTF-8 encoding of a single scalar value (what Python `str.encode("utf-8")`
does per character). -/
def utf8EncodeChar (c : Char) : List Nat :=
  let n := c.toNat
  if n < 0x80 then [n]
  else if n < 0x800 then [0xC0 + n / 64, 0x80 + n % 64]
  else if n < 0x10000 then [0xE0 + n / 4096, 0x80 + (n / 64) % 64, 0x80 + n % 64]
  else [0xF0 + n / 262144, 0x80 + (n / 4096) % 64, 0x80 + (n / 64) % 64, 0x80 + n % 64]

/-- Embedding of `to_bytes` of gen_data.py: `bytes (s, encoding = "utf-8")`. -/
def to_bytes (s : String) : List Nat :=
  (s.data.map utf8EncodeChar).flatten

/-- A `struct.pack` `Ns` field: the byte string is truncated, or padded
with `0x00` bytes, to exactly `w` bytes. -/
def packStr (w : Nat) (s : String) : List Nat :=
  (to_bytes s ++ List.replicate w 0).take w

/-- The `k` little-endian bytes of `n` (serialization used by `struct.pack`
with the `<` byte-order marker). -/
def leBytes (n : Nat) : Nat → List Nat
  | 0 => []
  | k + 1 => n % 256 :: leBytes (n / 256) k

/-- Value of a little-endian byte list (the reading direction used by the
generated C checker and by the decoder runtime). -/
def leVal (bs : List Nat) : Nat :=
  bs.foldr (fun b acc => b + 256 * acc) 0

/-! ## Python exceptions raised by the encoding pipeline -/

/-- Error taxonomy of the spec, mapped onto the Python exceptions the script
actually raises: `IndexError` (row too short) is `schemaError`, `ValueError`
(unparseable numeric column) is `formatError`, `struct.error` and
`OverflowError` (value out of range for the pack format) are `rangeError`,
`NameError` (loop variable never bound) and `FileNotFoundError` keep their
own names. -/
inductive PyErr where
  | schemaError
  | formatError
  | rangeError
  | nameError
  | fileNotFound
  deriving DecidableEq, Repr

/-! ## Python numeric-string parsing

`int (s, 10)`, `int (s, 16)` and `float (s)` as used by the record encoders.
ASCII digits, an optional sign, surrounding ASCII whitespace, single
underscores between digits, an optional `0x` tag for base 16, and the
`inf` / `infinity` / `nan` keywords for `float` are modelled; non-ASCII
Unicode digits (which CPython would also accept, but which never occur in
the dataset) are out of scope of the embedding. -/

/-- ASCII whitespace stripped by Python numeric constructors. -/
def isPySpace (c : Char) : Bool := c.toNat = 32 || (9 ≤ c.toNat && c.toNat ≤ 13)

/-- Strip leading and trailing whitespace. -/
def trimPy (cs : List Char) : List Char :=
  ((cs.dropWhile isPySpace).reverse.dropWhile isPySpace).reverse

/-- Value of one digit character in the given base (`0-9`, and `a-f` / `A-F`
when the base is 16). -/
def digitValB (base : Nat) (c : Char) : Option Nat :=
  let n := c.toNat
  if 48 ≤ n && n ≤ 57 && n - 48 < base then some (n - 48)
  else if base = 16 && 97 ≤ n && n ≤ 102 then some (n - 87)
  else if base = 16 && 65 ≤ n && n ≤ 70 then some (n - 55)
  else none

/-- Scan a maximal run of digits in the given base, allowing a single
underscore between two digits (CPython's grammar for numeric literals and
`int` / `float` string conversion). Returns the accumulated value, the
number of digits consumed and the unconsumed remainder. -/
def scanDigitsB (base : Nat) : Nat → Nat → List Char → Nat × Nat × List Char
  | acc, cnt, [] => (acc, cnt, [])
  | acc, cnt, '_' :: c :: cs =>
      match digitValB base c with
      | some d => if cnt ≠ 0 then scanDigitsB base (acc * base + d) (cnt + 1) cs
                  else (acc, cnt, '_' :: c :: cs)
      | none => (acc, cnt, '_' :: c :: cs)
  | acc, cnt, c :: cs =>
      match digitValB base c with
      | some d => scanDigitsB base (acc * base + d) (cnt + 1) cs
      | none => (acc, cnt, c :: cs)

/-- Strip an optional `0x` / `0X` tag (base-16 conversion only). -/
def stripHexTag : List Char → List Char
  | '0' :: 'x' :: r => r
  | '0' :: 'X' :: r => r
  | r => r

/-- Split an optional leading sign. Returns (negative?, rest). -/
def splitSign : List Char → Bool × List Char
  | '+' :: r => (false, r)
  | '-' :: r => (true, r)
  | r => (false, r)

/-- Embedding of Python `int (s, base)` for base 10 and 16. `none` models the
`ValueError` CPython raises on an unparseable string. -/
def pyIntCore (base : Nat) (cs0 : List Char) : Option Int :=
  let cs := trimPy cs0
  let (neg, cs) := splitSign cs
  let cs := if base = 16 then stripHexTag cs else cs
  match scanDigitsB base 0 0 cs with
  | (v, cnt, rest) =>
      if cnt ≠ 0 && rest.isEmpty then some (if neg then -(v : Int) else (v : Int))
      else none

/-- Lower-case an ASCII letter (for the case-insensitive float keywords). -/
def lowerCh (c : Char) : Char :=
  if 65 ≤ c.toNat && c.toNat ≤ 90 then Char.ofNat (c.toNat + 32) else c

/-- Classes of values `float (s)` can produce: a finite decimal
`(-1)^neg * m * 10^e`, an infinity, or a NaN. -/
inductive PyFloat where
  | finite (neg : Bool) (m : Nat) (e : Int)
  | inf (neg : Bool)
  | nan (neg : Bool)
  deriving DecidableEq, Repr

/-- Embedding of Python `float (s)`: sign, decimal digits with an optional
point and an optional decimal exponent, or the keywords
`inf` / `infinity` / `nan` (case-insensitive). `none` models `ValueError`. -/
def pyFloatCore (cs0 : List Char) : Option PyFloat :=
  let cs := trimPy cs0
  let (neg, cs) := splitSign cs
  let low := cs.map lowerCh
  if low = ['i', 'n', 'f'] || low = ['i', 'n', 'f', 'i', 'n', 'i', 't', 'y'] then
    some (.inf neg)
  else if low = ['n', 'a', 'n'] then
    some (.nan neg)
  else
    match scanDigitsB 10 0 0 cs with
    | (ip, icnt, r1) =>
      let fracScan := match r1 with
        | '.' :: r => some (scanDigitsB 10 ip 0 r)
        | _ => none
      let (mval, fcnt, r2) := match fracScan with
        | some (v, k, r) => (v, k, r)
        | none => (ip, 0, r1)
      match r2 with
      | 'e' :: r3 | 'E' :: r3 =>
          let (eneg, r4) := splitSign r3
          (match scanDigitsB 10 0 0 r4 with
           | (ev, ecnt, r5) =>
              if icnt + fcnt ≠ 0 && ecnt ≠ 0 && r5.isEmpty then
                some (.finite neg mval ((if eneg then -(ev : Int) else (ev : Int)) - fcnt))
              else none)
      | r2 =>
          if icnt + fcnt ≠ 0 && r2.isEmpty then some (.finite neg mval (-(fcnt : Int)))
          else none

/-! ## IEEE-754 conversion used by `struct.pack`

CPython's `float (s)` rounds the decimal to binary64; `struct.pack "<f"`
then rounds that binary64 to binary32, raising `OverflowError` when the
result does not fit in a finite binary32. Both steps are modelled by one
exact round-to-nearest-even conversion of a positive rational, applied
twice (so the double rounding of the real pipeline is preserved). -/

/-- Decide `n / d ≥ 2 ^ k` for positive naturals `n`, `d` and integer `k`. -/
def ratGePow2 (n d : Nat) (k : Int) : Bool :=
  if 0 ≤ k then d * 2 ^ k.toNat ≤ n else d ≤ n * 2 ^ (-k).toNat

/-- Binary exponent `e` with `2 ^ (e-1) ≤ n / d < 2 ^ e` for positive `n`, `d`. -/
def ratExp (n d : Nat) : Int :=
  let c : Int := (Nat.log2 n : Int) - (Nat.log2 d : Int)
  if ratGePow2 n d c then c + 1 else c

/-- Round the positive rational `n / d` to the nearest multiple of `2 ^ g`,
ties to even; returns the resulting multiplier. -/
def roundAtGrid (n d : Nat) (g : Int) : Nat :=
  let p := if 0 ≤ g then (n, d * 2 ^ g.toNat) else (n * 2 ^ (-g).toNat, d)
  let q := p.1 / p.2
  let r := p.1 % p.2
  if p.2 < 2 * r then q + 1
  else if 2 * r < p.2 then q
  else if q % 2 = 0 then q else q + 1

/-- Round the positive rational `n / d` to a binary floating-point value
`m * 2 ^ g` with `prec` bits of precision, smallest grid exponent `gmin`
(the subnormal quantum) and overflow bound `2 ^ emax`; `none` on overflow. -/
def roundFloatPos (prec : Nat) (gmin emax : Int) (n d : Nat) : Option (Nat × Int) :=
  let e := ratExp n d
  let g := max (e - prec) gmin
  let m := roundAtGrid n d g
  if ratGePow2 m 1 (emax - g) then none else some (m, g)

/-- Decimal `m * 10 ^ e10` to binary64 (the `float (s)` step); `none` means
the conversion overflowed to an infinity (CPython returns `inf`, without an
error, in that case). -/
def decTo64 (m : Nat) (e10 : Int) : Option (Nat × Int) :=
  if m = 0 then some (0, 0)
  else
    let p := if 0 ≤ e10 then (m * 10 ^ e10.toNat, 1) else (m, 10 ^ (-e10).toNat)
    roundFloatPos 53 (-1074) 1024 p.1 p.2

/-- Binary64 value `m * 2 ^ g` to binary32 (the `struct.pack "<f"` step);
`none` models the `OverflowError` raised when the rounded magnitude reaches
`2 ^ 128`. -/
def dyTo32 (m : Nat) (g : Int) : Option (Nat × Int) :=
  if m = 0 then some (0, -149)
  else
    let p := if 0 ≤ g then (m * 2 ^ g.toNat, 1) else (m, 2 ^ (-g).toNat)
    roundFloatPos 24 (-149) 128 p.1 p.2

/-- Assemble binary32 bits from sign, biased exponent and fraction. The
`min` and `%` guards keep the result below `2 ^ 32` for any input; they are
inert for the in-range values produced by the rounding pipeline. -/
def f32Assemble (neg : Bool) (biased frac : Nat) : Nat :=
  (if neg then 2 ^ 31 else 0) + min biased 255 * 2 ^ 23 + frac % 2 ^ 23

/-- Bits of a finite rounded binary32 value `m32 * 2 ^ g32`. -/
def f32bitsFin (neg : Bool) (m32 : Nat) (g32 : Int) : Nat :=
  if m32 = 0 then f32Assemble neg 0 0
  else if m32 < 2 ^ 23 then f32Assemble neg 0 m32
  else f32Assemble neg (g32 + 150).toNat (m32 - 2 ^ 23)

/-- Bits of a binary32 infinity. -/
def infBits (neg : Bool) : Nat := f32Assemble neg 255 0

/-- Bits of the quiet NaN produced by packing Python's `float ("nan")`. -/
def nanBits (neg : Bool) : Nat := f32Assemble neg 255 (2 ^ 22)

/-- Bit pattern stored by `struct.pack "<f"` for a parsed Python float;
`rangeError` models the `OverflowError` for finite doubles too large for
binary32. -/
def f32bitsE : PyFloat → Except PyErr Nat
  | .inf neg => .ok (infBits neg)
  | .nan neg => .ok (nanBits neg)
  | .finite neg m e10 =>
      match decTo64 m e10 with
      | none => .ok (infBits neg)
      | some (m64, g64) =>
          match dyTo32 m64 g64 with
          | none => .error .rangeError
          | some (m32, g32) => .ok (f32bitsFin neg m32 g32)

/-! ## Record Layout Registry (gen_data.py lines 128-174) -/

/-- Indexing `data[i]` of a CSV row; a missing column raises `IndexError`
(the spec's `SchemaError`). -/
def getCol (d : List String) (i : Nat) : Except PyErr String :=
  match d.get? i with
  | some s => .ok s
  | none => .error .schemaError

/-- Column access followed by `int (column, base)`. -/
def pyIntAt (base : Nat) (d : List String) (i : Nat) : Except PyErr Int := do
  let s ← getCol d i
  match pyIntCore base s.data with
  | some v => .ok v
  | none => .error .formatError

/-- Column access followed by `float (column)`. -/
def pyFloatAt (d : List String) (i : Nat) : Except PyErr PyFloat := do
  let s ← getCol d i
  match pyFloatCore s.data with
  | some v => .ok v
  | none => .error .formatError

/-- A `struct.pack` `I` field (u32, little-endian, range-checked). -/
def packU32 (v : Int) : Except PyErr (List Nat) :=
  if 0 ≤ v ∧ v < 2 ^ 32 then .ok (leBytes v.toNat 4) else .error .rangeError

/-- A `struct.pack` `B` field (u8, range-checked). -/
def packU8 (v : Int) : Except PyErr (List Nat) :=
  if 0 ≤ v ∧ v < 2 ^ 8 then .ok (leBytes v.toNat 1) else .error .rangeError

/-- A `struct.pack` `q` field (i64 two's complement, little-endian,
range-checked). -/
def packQ (v : Int) : Except PyErr (List Nat) :=
  if -(2 ^ 63) ≤ v ∧ v < 2 ^ 63 then .ok (leBytes (v % 2 ^ 64).toNat 8)
  else .error .rangeError

/-- A `struct.pack` `f` field: 4 little-endian bytes of the binary32 bits. -/
def packF32 (f : PyFloat) : Except PyErr (List Nat) := do
  let bits ← f32bitsE f
  pure (leBytes bits 4)

/-- Record length constants of gen_data.py. -/
def aircraft_rec_len : Nat := 6 + 10 + 10 + 40

def airport_rec_len : Nat := 4 + 3 + 40 + 20 + 2 + 4 + 4

def routes_rec_len : Nat := 8 + 20

def blocks_rec_len : Nat := 4 + 4 + 4 + 4 + 4 + 1 + 2

/-- Embedding of `aircraft_record`: format `"<6s10s10s40s"` over columns
0, 1, 2 and 5 of the row, accessed in that order. -/
def aircraft_record (data : List String) : Except PyErr (List Nat) := do
  let icao_addr ← getCol data 0
  let regist ← getCol data 1
  let manuf ← getCol data 2
  let model ← getCol data 5
  pure (packStr 6 icao_addr ++ packStr 10 regist ++ packStr 10 manuf ++ packStr 40 model)

/-- Embedding of `airport_record`: format `"<4s3s40s20s2sff"` over columns
2, 3, 1, 4, 5, 6, 7 accessed in that order (floats parsed last). -/
def airport_record (data : List String) : Except PyErr (List Nat) := do
  let icao_name ← getCol data 2
  let iata_name ← getCol data 3
  let full_name ← getCol data 1
  let location ← getCol data 4
  let country ← getCol data 5
  let latitude ← pyFloatAt data 6
  let longitude ← pyFloatAt data 7
  let latB ← packF32 latitude
  let lonB ← packF32 longitude
  pure (packStr 4 icao_name ++ packStr 3 iata_name ++ packStr 40 full_name ++
        packStr 20 location ++ packStr 2 country ++ latB ++ lonB)

/-- Embedding of `routes_record`: format `"<8s20s"` over columns 0 and 4. -/
def routes_record (data : List String) : Except PyErr (List Nat) := do
  let call_sign ← getCol data 0
  let airports ← getCol data 4
  pure (packStr 8 call_sign ++ packStr 20 airports)

/-- Embedding of `blocks_record`: format `"<IIIIIB2s"`; hex columns 0, 1, 3,
4, decimal columns 2, 5, string column 6, parsed in source order, then
packed (range checks in format order). -/
def blocks_record (data : List String) : Except PyErr (List Nat) := do
  let start ← pyIntAt 16 data 0
  let finish ← pyIntAt 16 data 1
  let count ← pyIntAt 10 data 2
  let bitmask ← pyIntAt 16 data 3
  let sign_bitmask ← pyIntAt 16 data 4
  let is_military ← pyIntAt 10 data 5
  let country_ISO ← getCol data 6
  let b0 ← packU32 start
  let b1 ← packU32 finish
  let b2 ← packU32 count
  let b3 ← packU32 bitmask
  let b4 ← packU32 sign_bitmask
  let b5 ← packU8 is_military
  pure (b0 ++ b1 ++ b2 ++ b3 ++ b4 ++ b5 ++ packStr 2 country_ISO)

/-! ## Binary Table Encoder (`csv_handler.create_bin_file`, lines 229-250)

The writer opens the output with mode `w+b` (truncating it), seeks past the
28 reserved header bytes, writes one packed record per data row, then seeks
back and writes the header, whose record count is the final value of the
`enumerate` loop variable `rows`. We model the bytes that end up on disk:
a seek alone does not materialize bytes, and a write at offset 28 of a
fresh file zero-fills the gap, so the disk image is empty when nothing was
ever written, `28 zero bytes ++ records` when only records were written,
and `header ++ records` on success. -/

/-- Magic marker `bin_marker` of gen_data.py (exactly 12 ASCII bytes). -/
def bin_marker : String := "BIN-dump1090"

/-- The per-row encode loop: encodes data rows in order, stopping at the
first failing row; returns the error (if any) and the concatenation of the
record bytes written before the failure. -/
def encodeLoop (recFunc : List String → Except PyErr (List Nat)) :
    List (List String) → Option PyErr × List Nat
  | [] => (none, [])
  | d :: ds =>
      match recFunc d with
      | .error e => (some e, [])
      | .ok b =>
          let rest := encodeLoop recFunc ds
          (rest.1, b ++ rest.2)

/-- The 28-byte header `struct.pack ("<12sqII", bin_marker, now, rows,
rec_len)`. -/
def packHeader (now : Int) (cnt recLen : Nat) : Except PyErr (List Nat) := do
  let ts ← packQ now
  let c ← packU32 (cnt : Int)
  let l ← packU32 (recLen : Int)
  pure (packStr 12 bin_marker ++ ts ++ c ++ l)

/-- Embedding of `create_bin_file`. Input `rows` is the list of CSV rows of
the merged file (index 0 is the header row, skipped and not counted).
Returns the final status together with the bytes left on disk. With no rows
at all the loop variable `rows` is never bound and the header-patch
`struct.pack` raises `NameError`, with nothing ever written. -/
def createBinDisk (recFunc : List String → Except PyErr (List Nat))
    (recLen : Nat) (rows : List (List String)) (now : Int) :
    Except PyErr Unit × List Nat :=
  match rows with
  | [] => (.error .nameError, [])
  | _ :: dataRows =>
      match encodeLoop recFunc dataRows with
      | (some e, written) =>
          (.error e, if written.isEmpty then [] else List.replicate 28 0 ++ written)
      | (none, written) =>
          match packHeader now dataRows.length recLen with
          | .error e =>
              (.error e, if written.isEmpty then [] else List.replicate 28 0 ++ written)
          | .ok hdr => (.ok (), hdr ++ written)

/-! ## Layout inverse (decoding a fixed-width record buffer)

The decoding direction used by the round-trip property: split the buffer at
the declared field widths, read numeric fields little-endian, and strip the
trailing `0x00` padding from string fields. -/

/-- The `len` bytes of `buf` starting at `off`. -/
def sliceBytes (buf : List Nat) (off len : Nat) : List Nat :=
  (buf.drop off).take len

/-- Strip trailing `0x00` bytes. -/
def stripZeroPad (bs : List Nat) : List Nat :=
  (bs.reverse.dropWhile (· == 0)).reverse

/-- Decode a string field of width `len` at offset `off`. -/
def decodeStrField (buf : List Nat) (off len : Nat) : List Nat :=
  stripZeroPad (sliceBytes buf off len)

/-- Decode a little-endian numeric field of width `len` at offset `off`. -/
def decodeNumField (buf : List Nat) (off len : Nat) : Nat :=
  leVal (sliceBytes buf off len)

/-- Round-trip contract for one string field of width `w`: the decoded bytes
are the encoded value truncated to `w` bytes with trailing `0x00` bytes
stripped; in particular the field is reproduced exactly whenever it fits
and does not itself end in a `0x00` byte. -/
def strFieldRT (w : Nat) (s : String) (dec : List Nat) : Prop :=
  dec = stripZeroPad ((to_bytes s).take w) ∧
  ((to_bytes s).length ≤ w → (to_bytes s).getLast? ≠ some 0 → dec = to_bytes s)

/-! ## Allocation-Block Classifier (generated C, lines 856-866)

The generated `blocks_record` C struct and `aircraft_find_block`. Fields
declared `uint32_t` hold the parsed value converted to `uint32_t` (reduced
mod `2 ^ 32`); `is_military` (a C `char`) and the two-character
`country_ISO` initializer (`"%.2s"`) are kept as parsed. -/

/-- One row of the generated static `sorted_blocks` array (C struct
`blocks_record`). -/
structure BlocksRec where
  start : Nat
  finish : Nat
  count : Nat
  bitmask : Nat
  sign_bitmask : Nat
  is_military : Int
  country_ISO : String
  deriving DecidableEq, Repr

/-- The masked-equality test `(addr & b->sign_bitmask) == b->bitmask`. -/
def blockMatch (addr : Nat) (b : BlocksRec) : Bool :=
  addr &&& b.sign_bitmask == b.bitmask

/-- Embedding of the generated `aircraft_find_block`: scan the array in
order and return the first block whose masked-equality test holds, or
`none` (the C `NULL`, "unclassified"). -/
def aircraft_find_block (blocks : List BlocksRec) (addr : Nat) : Option BlocksRec :=
  match blocks with
  | [] => none
  | b :: bs => if blockMatch addr b then some b else aircraft_find_block bs addr

/-! ## Code generation sort (`gen_c_file`, lines 906-921)

`gen_c_file` iterates `sorted (blocks.data, reverse = True, key = lambda
field: field[4])`: a stable sort, descending on the CSV *string* in column
4. Python string comparison is code-point lexicographic; we embed it
directly. -/

/-- Code-point lexicographic `≤` on character lists (Python `str` order). -/
def charsLe : List Char → List Char → Bool
  | [], _ => true
  | _ :: _, [] => false
  | a :: as, b :: bs =>
      if a.toNat < b.toNat then true
      else if b.toNat < a.toNat then false
      else charsLe as bs

/-- Code-point lexicographic `<` on character lists. -/
def charsLt : List Char → List Char → Bool
  | [], [] => false
  | [], _ :: _ => true
  | _ :: _, [] => false
  | a :: as, b :: bs =>
      if a.toNat < b.toNat then true
      else if b.toNat < a.toNat then false
      else charsLt as bs

/-- Python `a <= b` on strings. -/
def strLe (a b : String) : Bool := charsLe a.data b.data

/-- Python `a < b` on strings. -/
def strLt (a b : String) : Bool := charsLt a.data b.data

/-- A CSV row. -/
abbrev Row := List String

/-- The sort key `lambda field: field[4]` (the `sign_bitmask` CSV string).
Rows with fewer than five columns would raise `IndexError` in the source
and are outside every use below; `getD` keeps the function total. -/
def key4 (r : Row) : String := r.getD 4 ""

/-- Stable insertion step of the descending sort: an earlier row is placed
before the first already-sorted row whose key is `≤` its own, so equal keys
keep their original relative order (Python's `sorted` with `reverse = True`
is stable). -/
def insertDesc (x : Row) : List Row → List Row
  | [] => [x]
  | y :: ys => if strLe (key4 y) (key4 x) then x :: y :: ys else y :: insertDesc x ys

/-- Embedding of `sorted (data, reverse = True, key = lambda field:
field[4])`. -/
def sortDescRows : List Row → List Row
  | [] => []
  | x :: xs => insertDesc x (sortDescRows xs)

/-- Parsing of one sorted row into the emitted C array entry:
`int (d[0], 16), int (d[1], 16), int (d[2]), int (d[3], 16),
int (d[4], 16), int (d[5]), "%.2s" % d[6]`, with the `uint32_t` initializer
conversion reduced mod `2 ^ 32`. -/
def parse_block_row (d : Row) : Except PyErr BlocksRec := do
  let v0 ← pyIntAt 16 d 0
  let v1 ← pyIntAt 16 d 1
  let v2 ← pyIntAt 10 d 2
  let v3 ← pyIntAt 16 d 3
  let v4 ← pyIntAt 16 d 4
  let v5 ← pyIntAt 10 d 5
  let c ← getCol d 6
  pure ⟨(v0.emod (2 ^ 32)).toNat, (v1.emod (2 ^ 32)).toNat, (v2.emod (2 ^ 32)).toNat,
        (v3.emod (2 ^ 32)).toNat, (v4.emod (2 ^ 32)).toNat, v5, ⟨c.data.take 2⟩⟩

/-- The record list baked into the generated `sorted_blocks` array, in
emission order. -/
def gen_rows : List Row → Except PyErr (List BlocksRec)
  | [] => .ok []
  | d :: ds => do
      let b ← parse_block_row d
      let bs ← gen_rows ds
      pure (b :: bs)

/-- Decimal value of a string of `0-9` / `A-F` hex digits (used to state
when the string sort agrees with the numeric sort). -/
def hexUpVal (c : Char) : Nat := if c.toNat ≤ 57 then c.toNat - 48 else c.toNat - 55

/-- Character class `0-9` or `A-F`. -/
def isHexUp (c : Char) : Bool :=
  (48 ≤ c.toNat && c.toNat ≤ 57) || (65 ≤ c.toNat && c.toNat ≤ 70)

/-- Numeric value of an upper-case hex string. -/
def hexNum (s : String) : Nat := s.data.foldl (fun a c => 16 * a + hexUpVal c) 0

/-! ## Generated validation checker (`create_c_test_file`, lines 575-621 and
681-699)

For the three string-keyed domains the generated `check_record` counts a
violation for record `i >= 1` when `rec->FIELD_1[0]` is non-zero and
`strnicmp (prev_rec->FIELD_1, rec->FIELD_1, FIELD_1_SIZE) >= 0`; for the
allocation-block domain it counts a violation when
`prev_rec->start > rec->start`. `main` returns 0 iff `num_err == 0`. -/

/-- The `tolower` of the C runtime on a byte (ASCII letters only). -/
def byteLower (c : Nat) : Nat := if 65 ≤ c ∧ c ≤ 90 then c + 32 else c

/-- The Windows CRT `strnicmp`: compare at most `n` bytes case-insensitively,
stopping at a `0x00` byte. Both arguments are fixed-width key fields of the
same length, so the unequal-length cases are unreachable. -/
def strnicmp : List Nat → List Nat → Nat → Int
  | _, _, 0 => 0
  | [], _, _ + 1 => 0
  | _ :: _, [], _ + 1 => 0
  | x :: xs, y :: ys, k + 1 =>
      let a := byteLower x
      let b := byteLower y
      if a ≠ b then (a : Int) - (b : Int)
      else if a = 0 then 0
      else strnicmp xs ys k

/-- Violation test of the generated string-key `check_record` (key fields
are the raw `FIELD_1` bytes of width `w`). -/
def strViol (w : Nat) (prev rec : List Nat) : Bool :=
  decide (rec.headD 0 ≠ 0 ∧ 0 ≤ strnicmp prev rec w)

/-- Violation test of the generated allocation-block `check_record`
(`prev_rec->start > rec->start`). -/
def blkViol (prev rec : Nat) : Bool := decide (rec < prev)

/-- The record loop of the generated `main` from the second record on,
carrying the previous record and accumulating `num_err`. -/
def checkLoop (viol : α → α → Bool) : α → List α → Nat
  | _, [] => 0
  | prev, r :: rs => (if viol prev r then 1 else 0) + checkLoop viol r rs

/-- Total `num_err` after scanning all records (`check_record` is a no-op
for the first record, `num_rec == 0`). -/
def runChecker (viol : α → α → Bool) : List α → Nat
  | [] => 0
  | r :: rs => checkLoop viol r rs

/-- The generated `main`'s exit status: `num_err == 0 ? 0 : 1`. -/
def checkerExit (viol : α → α → Bool) (recs : List α) : Nat :=
  if runChecker viol recs = 0 then 0 else 1

/-- Case-sensitive lexicographic `<` on byte lists. Modelled from the spec:
the comparison the claim asserts for the string-keyed domains ("its key
field is lexicographically less than record i-1's key field"); to be
compared with the `strnicmp`-based test the generated code performs. -/
def bytesLt : List Nat → List Nat → Bool
  | [], [] => false
  | [], _ :: _ => true
  | _ :: _, [] => false
  | a :: as, b :: bs =>
      if a < b then true else if b < a then false else bytesLt as bs

/-! ## Fragment Merger (`walk_csv_tree` lines 91-101 and
`csv_handler.create_csv_file` lines 217-227)

A directory tree is modelled as a rose tree whose directory entry lists
carry the (arbitrary) enumeration order of `os.listdir`; the walk sorts
each directory's entries by name (`sorted (os.listdir (top))`), recurses
into sub-directories, and collects regular files matching `*.csv` (for a
full path, the glob is equivalent to the `.csv` suffix test). File content
is modelled as the BOM-stripped header line plus the data lines that
`read_csv_file` returns. Paths are kept as component lists. -/

/-- A file-system entry: a CSV-like file (name, header line, data lines) or
a directory with its entries in `os.listdir` enumeration order. -/
inductive FSEntry where
  | file (name : String) (header : String) (rows : List String)
  | dir (name : String) (entries : List FSEntry)

/-- Name of an entry. -/
def FSEntry.entName : FSEntry → String
  | .file n _ _ => n
  | .dir n _ => n

/-- The `fnmatch (fqfn, "*.csv")` test: since `*` matches any characters,
the glob holds exactly when the path — equivalently, the file name — ends
in `.csv`. -/
def isCsvName (n : String) : Bool :=
  match n.data.reverse with
  | 'v' :: 's' :: 'c' :: '.' :: _ => true
  | _ => false

/-- One discovered fragment: its path (component list, rooted at the walked
directory), its header line and its data lines. -/
structure FileInfo where
  path : List String
  header : String
  rows : List String
  deriving DecidableEq, Repr

/-- Stable insertion by name into a name-sorted list of
(name, walk result) pairs. -/
def insertPair (x : String × List FileInfo) :
    List (String × List FileInfo) → List (String × List FileInfo)
  | [] => [x]
  | y :: ys => if strLe x.1 y.1 then x :: y :: ys else y :: insertPair x ys

/-- Stable sort by name of (name, walk result) pairs: the model of
`sorted (os.listdir (top))`, which compares only the names. -/
def isortPairs : List (String × List FileInfo) → List (String × List FileInfo)
  | [] => []
  | x :: xs => insertPair x (isortPairs xs)

mutual

/-- The recursive walk: the result list of one entry, paths beginning with
the entry's own name. Each directory's children are processed and then
stably sorted by name before concatenation, which is the same list the
source produces by sorting the names first (the comparator reads only the
name). -/
def walkRel : FSEntry → List FileInfo
  | .file n h rs => if isCsvName n then [⟨[n], h, rs⟩] else []
  | .dir n es =>
      ((isortPairs (walkPairs es)).map
        (fun p => p.2.map (fun fi => ⟨n :: fi.path, fi.header, fi.rows⟩))).flatten

/-- The (name, walk result) pairs of a directory's entries, in enumeration
order. -/
def walkPairs : List FSEntry → List (String × List FileInfo)
  | [] => []
  | e :: es => (e.entName, walkRel e) :: walkPairs es

end

/-- Stable insertion of an entry into a name-sorted entry list. -/
def insertEnt (x : FSEntry) : List FSEntry → List FSEntry
  | [] => [x]
  | y :: ys => if strLe x.entName y.entName then x :: y :: ys else y :: insertEnt x ys

/-- Stable sort of an entry list by name. -/
def isortEnt : List FSEntry → List FSEntry
  | [] => []
  | x :: xs => insertEnt x (isortEnt xs)

mutual

/-- Normal form of a tree: every directory's entries recursively sorted by
name. Two trees denote the same fragment set (the same files with the same
contents, with directory enumeration order forgotten) exactly when their
normal forms coincide. -/
def sortTree : FSEntry → FSEntry
  | .file n h rs => .file n h rs
  | .dir n es => .dir n (isortEnt (sortTreeList es))

/-- Pointwise normal form of an entry list. -/
def sortTreeList : List FSEntry → List FSEntry
  | [] => []
  | e :: es => sortTree e :: sortTreeList es

end

mutual

/-- Well-formedness of a tree as a file system: no two entries of a
directory share a name. -/
def wfFS : FSEntry → Bool
  | .file _ _ _ => true
  | .dir _ es => decide ((es.map FSEntry.entName).Nodup) && wfList es

/-- Well-formedness of every entry of a list. -/
def wfList : List FSEntry → Bool
  | [] => true
  | e :: es => wfFS e && wfList es

end

/-- Lexicographic `<` on paths as component lists (component order =
code-point string order). -/
def pathLtB : List String → List String → Bool
  | [], [] => false
  | [], _ :: _ => true
  | _ :: _, [] => false
  | a :: as, b :: bs =>
      if strLt a b then true else if strLt b a then false else pathLtB as bs

/-- The merged dataset `create_csv_file` writes, as a list of lines: the
header of the first discovered fragment followed by every fragment's data
lines in traversal order; nothing at all when no fragment was discovered. -/
def mergeOutput (t : FSEntry) : List String :=
  match walkRel t with
  | [] => []
  | f0 :: rest => f0.header :: ((f0 :: rest).map (fun fi => fi.rows)).flatten

/-- The merge entry point. `none` stands for a missing domain root
directory, on which `os.listdir` raises `FileNotFoundError`; an existing
root (even one containing no `*.csv` fragment at all) is walked and merged
without any error. -/
def mergeRun : Option FSEntry → Except PyErr (List String)
  | none => .error .fileNotFound
  | some t => .ok (mergeOutput t)

/-! ## Per-column parse and range conditions (for the error-classification
statements about the record encoders) -/

/-- The numeric column `i` of the row either is absent or parses in the
given base. -/
def colParsesB (base : Nat) (d : List String) (i : Nat) : Bool :=
  match d.get? i with
  | none => true
  | some s => (pyIntCore base s.data).isSome

/-- The numeric column `i`, when present and parseable, has a value in
`[0, bound)` (the pack range check). -/
def colInRangeB (base : Nat) (d : List String) (i : Nat) (bound : Int) : Bool :=
  match d.get? i with
  | none => true
  | some s =>
      match pyIntCore base s.data with
      | none => true
      | some v => decide (0 ≤ v ∧ v < bound)

/-- Every numeric column of an allocation-block row that is present parses
in its base (hex for columns 0, 1, 3, 4, decimal for 2 and 5). -/
def blocksParseOkB (d : List String) : Bool :=
  colParsesB 16 d 0 && colParsesB 16 d 1 && colParsesB 10 d 2 &&
  colParsesB 16 d 3 && colParsesB 16 d 4 && colParsesB 10 d 5

/-- Every parsed numeric column of an allocation-block row is in range for
its pack format (`I` for the five u32 columns, `B` for is_military). -/
def blocksRangeOkB (d : List String) : Bool :=
  colInRangeB 16 d 0 (2 ^ 32) && colInRangeB 16 d 1 (2 ^ 32) &&
  colInRangeB 10 d 2 (2 ^ 32) && colInRangeB 16 d 3 (2 ^ 32) &&
  colInRangeB 16 d 4 (2 ^ 32) && colInRangeB 10 d 5 (2 ^ 8)

/-- The float column `i` of the row either is absent or parses. -/
def colFloatParsesB (d : List String) (i : Nat) : Bool :=
  match d.get? i with
  | none => true
  | some s => (pyFloatCore s.data).isSome

/-- The float column `i`, when present and parsed, also packs into binary32
without `OverflowError`. -/
def colFloatPacksB (d : List String) (i : Nat) : Bool :=
  match d.get? i with
  | none => true
  | some s =>
      match pyFloatCore s.data with
      | none => true
      | some f =>
          match f32bitsE f with
          | .ok _ => true
          | .error _ => false

/-! # Theorems -/

/-! ## Byte-level helper lemmas -/

theorem leBytes_length (n k : Nat) : (leBytes n k).length = k := by
  induction k generalizing n with
  | zero => rfl
  | succ k ih => simp [leBytes, ih]

theorem leVal_leBytes (n k : Nat) : leVal (leBytes n k) = n % 256 ^ k := by
  induction k generalizing n with
  | zero => simp [leBytes, leVal]; omega
  | succ k ih =>
      simp only [leBytes, leVal, List.foldr] at *
      rw [ih (n / 256), pow_succ', Nat.mod_mul]

theorem leVal_leBytes_of_lt (n k : Nat) (h : n < 256 ^ k) :
    leVal (leBytes n k) = n := by
  rw [leVal_leBytes, Nat.mod_eq_of_lt h]

theorem packStr_length (w : Nat) (s : String) : (packStr w s).length = w := by
  simp only [packStr, List.length_take, List.length_append, List.length_replicate]
  omega

/-! ## Classifier lemmas and Claim C1 -/

theorem find_block_eq_some_iff (addr : Nat) (b : BlocksRec) :
    ∀ blocks : List BlocksRec,
      aircraft_find_block blocks addr = some b ↔
        ∃ i, blocks.get? i = some b ∧ blockMatch addr b = true ∧
          ∀ j, j < i → ∀ c, blocks.get? j = some c → blockMatch addr c = false := by
  intro blocks
  induction blocks with
  | nil => simp [aircraft_find_block]
  | cons hd tl ih =>
      by_cases hm : blockMatch addr hd
      · simp only [aircraft_find_block, hm, if_true]
        constructor
        · intro h
          cases h
          exact ⟨0, rfl, hm, fun j hj => absurd hj (Nat.not_lt_zero j)⟩
        · rintro ⟨i, hget, _, hfirst⟩
          cases i with
          | zero =>
              have hb : hd = b := by simpa using hget
              exact congrArg some hb
          | succ i' =>
              have h0 := hfirst 0 (Nat.succ_pos i') hd rfl
              exact absurd hm (by simp [h0])
      · simp only [aircraft_find_block, hm, if_false, Bool.false_eq_true]
        rw [ih]
        constructor
        · rintro ⟨i, hget, hmb, hfirst⟩
          refine ⟨i + 1, by simpa using hget, hmb, ?_⟩
          intro j hj c hc
          cases j with
          | zero =>
              have : c = hd := by simpa using hc.symm
              subst this
              simpa using hm
          | succ j' => exact hfirst j' (by omega) c (by simpa using hc)
        · rintro ⟨i, hget, hmb, hfirst⟩
          cases i with
          | zero =>
              have : hd = b := by simpa using hget
              subst this
              exact absurd hmb (by simpa using hm)
          | succ i' =>
              refine ⟨i', by simpa using hget, hmb, ?_⟩
              intro j hj c hc
              exact hfirst (j + 1) (by omega) c (by simpa using hc)

theorem find_block_eq_none_iff (addr : Nat) :
    ∀ blocks : List BlocksRec,
      aircraft_find_block blocks addr = none ↔
        ∀ b ∈ blocks, blockMatch addr b = false := by
  intro blocks
  induction blocks with
  | nil => simp [aircraft_find_block]
  | cons hd tl ih =>
      by_cases hm : blockMatch addr hd
      · simp [aircraft_find_block, hm]
      · simp [aircraft_find_block, hm, ih, Bool.not_eq_true] at *

/-- Claim C1: for every specificity-sorted sequence of allocation blocks
and every 32-bit address, the generated `aircraft_find_block` scans the
sequence in order, testing `(addr & b->sign_bitmask) == b->bitmask`,
returns the first block for which the test holds, and returns NULL
("unclassified") exactly when no block in the sequence satisfies the
test. -/
theorem c1_classifier (blocks : List BlocksRec) (addr : Nat)
    (h32 : addr < 2 ^ 32)
    (hsorted : blocks.Pairwise (fun a b => b.sign_bitmask ≤ a.sign_bitmask)) :
    (∀ b, aircraft_find_block blocks addr = some b ↔
        ∃ i, blocks.get? i = some b ∧ blockMatch addr b = true ∧
          ∀ j, j < i → ∀ c, blocks.get? j = some c → blockMatch addr c = false) ∧
    (aircraft_find_block blocks addr = none ↔
        ∀ b ∈ blocks, blockMatch addr b = false) :=
  ⟨fun b => find_block_eq_some_iff addr b blocks, find_block_eq_none_iff addr blocks⟩

theorem c1_witness :
    ((0x43F005 : Nat) < 2 ^ 32 ∧
      ([⟨0x43F000, 0x43FFFF, 1, 0x43F000, 0xFFFFF0, 1, "US"⟩,
        ⟨0x000000, 0x7FFFFF, 1, 0x000000, 0x000000, 0, "ZZ"⟩] :
          List BlocksRec).Pairwise (fun a b => b.sign_bitmask ≤ a.sign_bitmask)) ∧
    ((∀ b, aircraft_find_block
          [⟨0x43F000, 0x43FFFF, 1, 0x43F000, 0xFFFFF0, 1, "US"⟩,
           ⟨0x000000, 0x7FFFFF, 1, 0x000000, 0x000000, 0, "ZZ"⟩] 0x43F005 = some b ↔
        ∃ i, ([⟨0x43F000, 0x43FFFF, 1, 0x43F000, 0xFFFFF0, 1, "US"⟩,
               ⟨0x000000, 0x7FFFFF, 1, 0x000000, 0x000000, 0, "ZZ"⟩] :
                 List BlocksRec).get? i = some b ∧ blockMatch 0x43F005 b = true ∧
          ∀ j, j < i → ∀ c,
            ([⟨0x43F000, 0x43FFFF, 1, 0x43F000, 0xFFFFF0, 1, "US"⟩,
              ⟨0x000000, 0x7FFFFF, 1, 0x000000, 0x000000, 0, "ZZ"⟩] :
                List BlocksRec).get? j = some c → blockMatch 0x43F005 c = false) ∧
      (aircraft_find_block
          [⟨0x43F000, 0x43FFFF, 1, 0x43F000, 0xFFFFF0, 1, "US"⟩,
           ⟨0x000000, 0x7FFFFF, 1, 0x000000, 0x000000, 0, "ZZ"⟩] 0x43F005 = none ↔
        ∀ b ∈ ([⟨0x43F000, 0x43FFFF, 1, 0x43F000, 0xFFFFF0, 1, "US"⟩,
                ⟨0x000000, 0x7FFFFF, 1, 0x000000, 0x000000, 0, "ZZ"⟩] :
                  List BlocksRec), blockMatch 0x43F005 b = false)) :=
  ⟨⟨by decide, by decide⟩, c1_classifier _ _ (by decide) (by decide)⟩

/-- Claim C3: for the three concrete allocation-block rows, the descending
sign_bitmask sort yields [block3, block1, block2], and classifying address
0x43F005 over the emitted array returns block3 (the military block). -/
theorem c3_concrete_scenario :
    sortDescRows
        [["400000", "43FFFF", "1", "400000", "FFC000", "0", "US"],
         ["000000", "7FFFFF", "1", "000000", "000000", "0", "ZZ"],
         ["43F000", "43FFFF", "1", "43F000", "FFFFF0", "1", "US"]] =
      [["43F000", "43FFFF", "1", "43F000", "FFFFF0", "1", "US"],
       ["400000", "43FFFF", "1", "400000", "FFC000", "0", "US"],
       ["000000", "7FFFFF", "1", "000000", "000000", "0", "ZZ"]] ∧
    gen_rows
        [["43F000", "43FFFF", "1", "43F000", "FFFFF0", "1", "US"],
         ["400000", "43FFFF", "1", "400000", "FFC000", "0", "US"],
         ["000000", "7FFFFF", "1", "000000", "000000", "0", "ZZ"]] =
      .ok [⟨0x43F000, 0x43FFFF, 1, 0x43F000, 0xFFFFF0, 1, "US"⟩,
           ⟨0x400000, 0x43FFFF, 1, 0x400000, 0xFFC000, 0, "US"⟩,
           ⟨0x000000, 0x7FFFFF, 1, 0x000000, 0x000000, 0, "ZZ"⟩] ∧
    aircraft_find_block
        [⟨0x43F000, 0x43FFFF, 1, 0x43F000, 0xFFFFF0, 1, "US"⟩,
         ⟨0x400000, 0x43FFFF, 1, 0x400000, 0xFFC000, 0, "US"⟩,
         ⟨0x000000, 0x7FFFFF, 1, 0x000000, 0x000000, 0, "ZZ"⟩] 0x43F005 =
      some ⟨0x43F000, 0x43FFFF, 1, 0x43F000, 0xFFFFF0, 1, "US"⟩ ∧
    (⟨0x43F000, 0x43FFFF, 1, 0x43F000, 0xFFFFF0, 1, "US"⟩ : BlocksRec).is_military = 1 := by
  refine ⟨by decide, by rfl, by decide, by rfl⟩

/-! ## String order lemmas (Python code-point comparison) -/

theorem charToNat_inj {a b : Char} (h : a.toNat = b.toNat) : a = b := by
  have hv : a.val = b.val := by
    apply UInt32.eq_of_val_eq
    exact Fin.eq_of_val_eq h
  exact Char.ext hv

theorem charsLe_refl : ∀ as : List Char, charsLe as as = true := by
  intro as
  induction as with
  | nil => rfl
  | cons a as ih => simp [charsLe, ih]

theorem charsLe_total : ∀ as bs : List Char, charsLe as bs = true ∨ charsLe bs as = true := by
  intro as
  induction as with
  | nil => intro bs; left; rfl
  | cons a as ih =>
      intro bs
      cases bs with
      | nil => right; rfl
      | cons b bs =>
          rcases Nat.lt_trichotomy a.toNat b.toNat with h | h | h
          · left; simp [charsLe, h]
          · have h1 : ¬ a.toNat < b.toNat := by omega
            have h2 : ¬ b.toNat < a.toNat := by omega
            simpa [charsLe, h1, h2] using ih bs
          · right; simp [charsLe, h]

theorem charsLe_trans :
    ∀ as bs cs : List Char,
      charsLe as bs = true → charsLe bs cs = true → charsLe as cs = true := by
  intro as
  induction as with
  | nil => intro bs cs _ _; rfl
  | cons a as ih =>
      intro bs cs h1 h2
      cases bs with
      | nil => simp [charsLe] at h1
      | cons b bs =>
          cases cs with
          | nil => simp [charsLe] at h2
          | cons c cs =>
              simp only [charsLe] at h1 h2 ⊢
              rcases Nat.lt_trichotomy a.toNat b.toNat with hab | hab | hab
              · rcases Nat.lt_trichotomy b.toNat c.toNat with hbc | hbc | hbc
                · simp [show a.toNat < c.toNat by omega]
                · simp [show a.toNat < c.toNat by omega]
                · simp [show ¬ b.toNat < c.toNat by omega, hbc] at h2
              · rcases Nat.lt_trichotomy b.toNat c.toNat with hbc | hbc | hbc
                · simp [show a.toNat < c.toNat by omega]
                · have h1' : charsLe as bs = true := by
                    simpa [show ¬ a.toNat < b.toNat by omega,
                           show ¬ b.toNat < a.toNat by omega] using h1
                  have h2' : charsLe bs cs = true := by
                    simpa [show ¬ b.toNat < c.toNat by omega,
                           show ¬ c.toNat < b.toNat by omega] using h2
                  simp [show ¬ a.toNat < c.toNat by omega,
                        show ¬ c.toNat < a.toNat by omega]
                  exact ih bs cs h1' h2'
                · simp [show ¬ b.toNat < c.toNat by omega, hbc] at h2
              · simp [show ¬ a.toNat < b.toNat by omega, hab] at h1

theorem strLe_refl (a : String) : strLe a a = true := charsLe_refl a.data

theorem strLe_total (a b : String) : strLe a b = true ∨ strLe b a = true :=
  charsLe_total a.data b.data

theorem strLe_trans {a b c : String} (h1 : strLe a b = true) (h2 : strLe b c = true) :
    strLe a c = true :=
  charsLe_trans a.data b.data c.data h1 h2

/-! ## The descending stable sort of `gen_c_file` (Claim C2) -/

theorem insertDesc_perm (x : Row) : ∀ l : List Row, List.Perm (insertDesc x l) (x :: l) := by
  intro l
  induction l with
  | nil => exact List.Perm.refl _
  | cons y ys ih =>
      by_cases hc : strLe (key4 y) (key4 x) = true
      · rw [insertDesc, if_pos hc]
      · rw [insertDesc, if_neg hc]
        exact (ih.cons y).trans (List.Perm.swap x y ys)

theorem sortDescRows_perm : ∀ l : List Row, List.Perm (sortDescRows l) l := by
  intro l
  induction l with
  | nil => exact List.Perm.refl _
  | cons x xs ih => exact (insertDesc_perm x (sortDescRows xs)).trans (ih.cons x)

theorem pairwise_insertDesc (x : Row) (l : List Row)
    (h : l.Pairwise (fun a b => strLe (key4 b) (key4 a) = true)) :
    (insertDesc x l).Pairwise (fun a b => strLe (key4 b) (key4 a) = true) := by
  induction l with
  | nil => simp [insertDesc]
  | cons y ys ih =>
      by_cases hc : strLe (key4 y) (key4 x) = true
      · rw [insertDesc, if_pos hc]
        refine List.Pairwise.cons ?_ h
        intro z hz
        rcases List.mem_cons.mp hz with rfl | hz'
        · exact hc
        · have h1 : strLe (key4 z) (key4 y) = true := (List.pairwise_cons.mp h).1 z hz'
          exact strLe_trans h1 hc
      · rw [insertDesc, if_neg hc]
        have hyx : strLe (key4 x) (key4 y) = true := by
          rcases strLe_total (key4 y) (key4 x) with h1 | h1
          · exact absurd h1 hc
          · exact h1
        rcases List.pairwise_cons.mp h with ⟨hy, hys⟩
        refine List.Pairwise.cons ?_ (ih hys)
        intro z hz
        have hz2 : z ∈ x :: ys := (insertDesc_perm x ys).mem_iff.mp hz
        rcases List.mem_cons.mp hz2 with rfl | hz'
        · exact hyx
        · exact hy z hz'

theorem sortDescRows_pairwise (l : List Row) :
    (sortDescRows l).Pairwise (fun a b => strLe (key4 b) (key4 a) = true) := by
  induction l with
  | nil => simp [sortDescRows]
  | cons x xs ih => exact pairwise_insertDesc x (sortDescRows xs) ih

theorem filter_insertDesc (x : Row) (k : String) :
    ∀ l : List Row,
      (insertDesc x l).filter (fun r => key4 r == k) =
        if key4 x == k then x :: l.filter (fun r => key4 r == k)
        else l.filter (fun r => key4 r == k) := by
  intro l
  induction l with
  | nil =>
      by_cases hx : (key4 x == k) = true <;> simp [insertDesc, List.filter, hx]
  | cons y ys ih =>
      by_cases hc : strLe (key4 y) (key4 x) = true
      · rw [insertDesc, if_pos hc]
        by_cases hx : (key4 x == k) = true <;> simp [List.filter_cons, hx]
      · rw [insertDesc, if_neg hc]
        rw [List.filter_cons, List.filter_cons]
        by_cases hy : (key4 y == k) = true
        · by_cases hx : (key4 x == k) = true
          · exfalso
            have ey : key4 y = k := by simpa using hy
            have ex : key4 x = k := by simpa using hx
            rw [ey, ex] at hc
            exact hc (strLe_refl k)
          · rw [ih]
            simp [hy, hx]
        · rw [ih]
          by_cases hx : (key4 x == k) = true <;> simp [hy, hx]

theorem filter_sortDescRows (k : String) :
    ∀ l : List Row,
      (sortDescRows l).filter (fun r => key4 r == k) =
        l.filter (fun r => key4 r == k) := by
  intro l
  induction l with
  | nil => rfl
  | cons x xs ih =>
      rw [sortDescRows, filter_insertDesc, List.filter_cons]
      by_cases hx : (key4 x == k) = true <;> simp [hx, ih]

/-! ## Fixed-width upper-case hex strings: string order = numeric order -/

theorem hexUpVal_lt_16 {c : Char} (h : isHexUp c = true) : hexUpVal c < 16 := by
  simp only [isHexUp, Bool.or_eq_true, Bool.and_eq_true, decide_eq_true_eq] at h
  unfold hexUpVal
  rcases h with ⟨h1, h2⟩ | ⟨h1, h2⟩ <;> split <;> omega

theorem hexUpVal_mono {c d : Char} (hc : isHexUp c = true) (hd : isHexUp d = true)
    (h : c.toNat < d.toNat) : hexUpVal c < hexUpVal d := by
  simp only [isHexUp, Bool.or_eq_true, Bool.and_eq_true, decide_eq_true_eq] at hc hd
  unfold hexUpVal
  rcases hc with ⟨h1, h2⟩ | ⟨h1, h2⟩ <;> rcases hd with ⟨h3, h4⟩ | ⟨h3, h4⟩ <;>
    (repeat' split) <;> omega

theorem hexFold_acc :
    ∀ (cs : List Char) (a : Nat),
      cs.foldl (fun x c => 16 * x + hexUpVal c) a =
        a * 16 ^ cs.length + cs.foldl (fun x c => 16 * x + hexUpVal c) 0 := by
  intro cs
  induction cs with
  | nil => intro a; simp
  | cons c cs ih =>
      intro a
      simp only [List.foldl, List.length_cons]
      rw [ih (16 * a + hexUpVal c), ih (16 * 0 + hexUpVal c)]
      ring

theorem hexFold_lt :
    ∀ cs : List Char, (∀ c ∈ cs, isHexUp c = true) →
      cs.foldl (fun x c => 16 * x + hexUpVal c) 0 < 16 ^ cs.length := by
  intro cs
  induction cs with
  | nil => intro _; simp
  | cons c cs ih =>
      intro h
      have hv : hexUpVal c < 16 := hexUpVal_lt_16 (h c (List.mem_cons_self c cs))
      have ht := ih (fun d hd => h d (List.mem_cons_of_mem c hd))
      simp only [List.foldl, List.length_cons]
      rw [hexFold_acc]
      calc (16 * 0 + hexUpVal c) * 16 ^ cs.length +
            cs.foldl (fun x d => 16 * x + hexUpVal d) 0
          < (16 * 0 + hexUpVal c) * 16 ^ cs.length + 16 ^ cs.length :=
            Nat.add_lt_add_left ht _
        _ = (hexUpVal c + 1) * 16 ^ cs.length := by ring
        _ ≤ 16 * 16 ^ cs.length := Nat.mul_le_mul_right _ (by omega)
        _ = 16 ^ (cs.length + 1) := by ring

theorem hex_le_of_charsLe :
    ∀ as bs : List Char, as.length = bs.length →
      (∀ c ∈ as, isHexUp c = true) → (∀ c ∈ bs, isHexUp c = true) →
      charsLe as bs = true →
      as.foldl (fun x c => 16 * x + hexUpVal c) 0 ≤
        bs.foldl (fun x c => 16 * x + hexUpVal c) 0 := by
  intro as
  induction as with
  | nil =>
      intro bs hlen _ _ _
      cases bs with
      | nil => simp
      | cons b bs => simp at hlen
  | cons a as ih =>
      intro bs hlen ha hb hle
      cases bs with
      | nil => simp at hlen
      | cons b bs =>
          have hlen' : as.length = bs.length := by simpa using hlen
          have hha : isHexUp a = true := ha a (List.mem_cons_self a as)
          have hhb : isHexUp b = true := hb b (List.mem_cons_self b bs)
          simp only [List.foldl]
          rw [hexFold_acc as, hexFold_acc bs, hlen']
          simp only [Nat.mul_zero, Nat.zero_add]
          simp only [charsLe] at hle
          rcases Nat.lt_trichotomy a.toNat b.toNat with hab | hab | hab
          · have hva : hexUpVal a < hexUpVal b := hexUpVal_mono hha hhb hab
            have hX : as.foldl (fun x c => 16 * x + hexUpVal c) 0 < 16 ^ bs.length := by
              rw [← hlen']
              exact hexFold_lt as (fun d hd => ha d (List.mem_cons_of_mem a hd))
            apply le_of_lt
            calc hexUpVal a * 16 ^ bs.length + as.foldl (fun x c => 16 * x + hexUpVal c) 0
                < hexUpVal a * 16 ^ bs.length + 16 ^ bs.length := Nat.add_lt_add_left hX _
              _ = (hexUpVal a + 1) * 16 ^ bs.length := by ring
              _ ≤ hexUpVal b * 16 ^ bs.length := Nat.mul_le_mul_right _ hva
              _ ≤ hexUpVal b * 16 ^ bs.length + bs.foldl (fun x c => 16 * x + hexUpVal c) 0 :=
                  Nat.le_add_right _ _
          · have hab' : a = b := charToNat_inj hab
            subst hab'
            have hle' : charsLe as bs = true := by
              simpa [Nat.lt_irrefl] using hle
            have hrec := ih bs hlen' (fun d hd => ha d (List.mem_cons_of_mem a hd))
              (fun d hd => hb d (List.mem_cons_of_mem a hd)) hle'
            exact Nat.add_le_add_left hrec _
          · simp [show ¬ a.toNat < b.toNat by omega, hab] at hle

theorem c2_counterexample :
    ¬ (sortDescRows [["0", "0", "0", "0", "F", "0", "ZZ"],
                     ["0", "1", "0", "0", "10", "0", "ZZ"]]).Pairwise
        (fun a b => hexNum (key4 b) ≤ hexNum (key4 a)) := by
  intro h
  have h1 : sortDescRows [["0", "0", "0", "0", "F", "0", "ZZ"],
                          ["0", "1", "0", "0", "10", "0", "ZZ"]] =
      [["0", "0", "0", "0", "F", "0", "ZZ"], ["0", "1", "0", "0", "10", "0", "ZZ"]] := by
    decide
  rw [h1] at h
  have h2 := (List.pairwise_cons.mp h).1 ["0", "1", "0", "0", "10", "0", "ZZ"]
    (List.mem_cons_self _ _)
  revert h2
  decide

/-- Claim C2 (amended): gen_c_file orders the rows descending by the string
value of the sign_bitmask column (`key = lambda field: field[4]`,
code-point comparison), with a stable sort that keeps rows with equal key
strings in their original relative order; this coincides with ordering by
descending numeric value whenever all sign_bitmask fields are equal-length
strings of upper-case hex digits (as in the shipped dataset), but not for
arbitrary merged datasets. -/
theorem c2_sort_amended :
    (∀ data : List Row, List.Perm (sortDescRows data) data) ∧
    (∀ data : List Row,
      (sortDescRows data).Pairwise (fun a b => strLe (key4 b) (key4 a) = true)) ∧
    (∀ (data : List Row) (k : String),
      (sortDescRows data).filter (fun r => key4 r == k) =
        data.filter (fun r => key4 r == k)) ∧
    (∀ (data : List Row) (L : Nat),
      (∀ r ∈ data, (key4 r).length = L ∧ (key4 r).data.all isHexUp = true) →
      (sortDescRows data).Pairwise (fun a b => hexNum (key4 b) ≤ hexNum (key4 a))) := by
  refine ⟨sortDescRows_perm, sortDescRows_pairwise,
    fun data k => filter_sortDescRows k data, ?_⟩
  intro data L hL
  have hp := sortDescRows_pairwise data
  have hmem : ∀ r ∈ sortDescRows data,
      (key4 r).length = L ∧ (key4 r).data.all isHexUp = true :=
    fun r hr => hL r ((sortDescRows_perm data).mem_iff.mp hr)
  refine List.Pairwise.imp_of_mem ?_ hp
  intro a b ha hb hle
  obtain ⟨haL, haH⟩ := hmem a ha
  obtain ⟨hbL, hbH⟩ := hmem b hb
  have hlen : (key4 b).data.length = (key4 a).data.length := by
    have h2 : (key4 b).length = (key4 a).length := by rw [hbL, haL]
    exact h2
  exact hex_le_of_charsLe (key4 b).data (key4 a).data hlen
    (fun c hc => (List.all_eq_true.mp hbH) c hc)
    (fun c hc => (List.all_eq_true.mp haH) c hc) hle

theorem c2_witness :
    (∀ r ∈ ([["400000", "43FFFF", "1", "400000", "FFC000", "0", "US"],
             ["000000", "7FFFFF", "1", "000000", "000000", "0", "ZZ"],
             ["43F000", "43FFFF", "1", "43F000", "FFFFF0", "1", "US"]] : List Row),
        (key4 r).length = 6 ∧ (key4 r).data.all isHexUp = true) ∧
    (sortDescRows [["400000", "43FFFF", "1", "400000", "FFC000", "0", "US"],
                   ["000000", "7FFFFF", "1", "000000", "000000", "0", "ZZ"],
                   ["43F000", "43FFFF", "1", "43F000", "FFFFF0", "1", "US"]]).Pairwise
      (fun a b => hexNum (key4 b) ≤ hexNum (key4 a)) :=
  ⟨by decide,
   c2_sort_amended.2.2.2
     [["400000", "43FFFF", "1", "400000", "FFC000", "0", "US"],
      ["000000", "7FFFFF", "1", "000000", "000000", "0", "ZZ"],
      ["43F000", "43FFFF", "1", "43F000", "FFFFF0", "1", "US"]] 6 (by decide)⟩

/-! ## Except-bind elimination and pack shape lemmas -/

theorem exceptBind_ok {α β : Type} {x : Except PyErr α} {f : α → Except PyErr β} {b : β}
    (h : (x >>= f) = .ok b) : ∃ a, x = .ok a ∧ f a = .ok b := by
  cases x with
  | error e =>
      exfalso
      have he : (Except.error e : Except PyErr α) >>= f = Except.error e := rfl
      rw [he] at h
      exact Except.noConfusion h
  | ok a =>
      refine ⟨a, rfl, ?_⟩
      have he : (Except.ok a : Except PyErr α) >>= f = f a := rfl
      rwa [he] at h

theorem packU32_ok {v : Int} {b : List Nat} (h : packU32 v = .ok b) :
    0 ≤ v ∧ v < 2 ^ 32 ∧ b = leBytes v.toNat 4 := by
  unfold packU32 at h
  split at h
  · rename_i hc
    exact ⟨hc.1, hc.2, (Except.ok.inj h).symm⟩
  · exact Except.noConfusion h

theorem packU8_ok {v : Int} {b : List Nat} (h : packU8 v = .ok b) :
    0 ≤ v ∧ v < 2 ^ 8 ∧ b = leBytes v.toNat 1 := by
  unfold packU8 at h
  split at h
  · rename_i hc
    exact ⟨hc.1, hc.2, (Except.ok.inj h).symm⟩
  · exact Except.noConfusion h

theorem packQ_ok {v : Int} {b : List Nat} (h : packQ v = .ok b) :
    b = leBytes ((v % 2 ^ 64)).toNat 8 := by
  unfold packQ at h
  split at h
  · exact (Except.ok.inj h).symm
  · exact Except.noConfusion h

theorem packF32_ok {f : PyFloat} {b : List Nat} (h : packF32 f = .ok b) :
    ∃ bits, f32bitsE f = .ok bits ∧ b = leBytes bits 4 := by
  unfold packF32 at h
  obtain ⟨bits, hb, h⟩ := exceptBind_ok h
  exact ⟨bits, hb, (Except.ok.inj h).symm⟩

/-! ## Slice lemmas for the layout inverse -/

theorem sliceBytes_append_left (a b : List Nat) (off len : Nat) (h : off + len ≤ a.length) :
    sliceBytes (a ++ b) off len = sliceBytes a off len := by
  simp only [sliceBytes, List.drop_append_eq_append_drop, List.take_append_eq_append_take,
    List.length_drop]
  have h1 : len - (a.length - off) = 0 := by omega
  rw [h1]
  simp

theorem sliceBytes_append_shift (a b : List Nat) (off len : Nat) (h : a.length ≤ off) :
    sliceBytes (a ++ b) off len = sliceBytes b (off - a.length) len := by
  simp only [sliceBytes, List.drop_append_eq_append_drop]
  rw [List.drop_eq_nil_of_le h]
  simp

theorem sliceBytes_here (a b : List Nat) (len : Nat) (h : a.length = len) :
    sliceBytes (a ++ b) 0 len = a := by
  simp only [sliceBytes, List.drop_zero]
  rw [← h, List.take_left]

/-! ## Record length lemmas -/

theorem aircraft_record_shape {d : List String} {b : List Nat}
    (h : aircraft_record d = .ok b) :
    ∃ s0 s1 s2 s5, getCol d 0 = .ok s0 ∧ getCol d 1 = .ok s1 ∧
      getCol d 2 = .ok s2 ∧ getCol d 5 = .ok s5 ∧
      b = packStr 6 s0 ++ (packStr 10 s1 ++ (packStr 10 s2 ++ packStr 40 s5)) := by
  unfold aircraft_record at h
  obtain ⟨s0, h0, h⟩ := exceptBind_ok h
  obtain ⟨s1, h1, h⟩ := exceptBind_ok h
  obtain ⟨s2, h2, h⟩ := exceptBind_ok h
  obtain ⟨s5, h5, h⟩ := exceptBind_ok h
  refine ⟨s0, s1, s2, s5, h0, h1, h2, h5, ?_⟩
  have hb := (Except.ok.inj h).symm
  simpa [List.append_assoc] using hb

theorem routes_record_shape {d : List String} {b : List Nat}
    (h : routes_record d = .ok b) :
    ∃ s0 s4, getCol d 0 = .ok s0 ∧ getCol d 4 = .ok s4 ∧
      b = packStr 8 s0 ++ packStr 20 s4 := by
  unfold routes_record at h
  obtain ⟨s0, h0, h⟩ := exceptBind_ok h
  obtain ⟨s4, h4, h⟩ := exceptBind_ok h
  exact ⟨s0, s4, h0, h4, (Except.ok.inj h).symm⟩

theorem airport_record_shape {d : List String} {b : List Nat}
    (h : airport_record d = .ok b) :
    ∃ s2 s3 s1 s4 s5 f6 f7 bits6 bits7,
      getCol d 2 = .ok s2 ∧ getCol d 3 = .ok s3 ∧ getCol d 1 = .ok s1 ∧
      getCol d 4 = .ok s4 ∧ getCol d 5 = .ok s5 ∧
      pyFloatAt d 6 = .ok f6 ∧ pyFloatAt d 7 = .ok f7 ∧
      f32bitsE f6 = .ok bits6 ∧ f32bitsE f7 = .ok bits7 ∧
      b = packStr 4 s2 ++ (packStr 3 s3 ++ (packStr 40 s1 ++ (packStr 20 s4 ++
          (packStr 2 s5 ++ (leBytes bits6 4 ++ leBytes bits7 4))))) := by
  unfold airport_record at h
  obtain ⟨s2, h2, h⟩ := exceptBind_ok h
  obtain ⟨s3, h3, h⟩ := exceptBind_ok h
  obtain ⟨s1, h1, h⟩ := exceptBind_ok h
  obtain ⟨s4, h4, h⟩ := exceptBind_ok h
  obtain ⟨s5, h5, h⟩ := exceptBind_ok h
  obtain ⟨f6, h6, h⟩ := exceptBind_ok h
  obtain ⟨f7, h7, h⟩ := exceptBind_ok h
  obtain ⟨b6, hb6, h⟩ := exceptBind_ok h
  obtain ⟨b7, hb7, h⟩ := exceptBind_ok h
  obtain ⟨bits6, hbits6, he6⟩ := packF32_ok hb6
  obtain ⟨bits7, hbits7, he7⟩ := packF32_ok hb7
  refine ⟨s2, s3, s1, s4, s5, f6, f7, bits6, bits7,
    h2, h3, h1, h4, h5, h6, h7, hbits6, hbits7, ?_⟩
  have hb := (Except.ok.inj h).symm
  subst he6
  subst he7
  simpa [List.append_assoc] using hb

theorem blocks_record_shape {d : List String} {b : List Nat}
    (h : blocks_record d = .ok b) :
    ∃ v0 v1 v2 v3 v4 v5 s6,
      pyIntAt 16 d 0 = .ok v0 ∧ pyIntAt 16 d 1 = .ok v1 ∧ pyIntAt 10 d 2 = .ok v2 ∧
      pyIntAt 16 d 3 = .ok v3 ∧ pyIntAt 16 d 4 = .ok v4 ∧ pyIntAt 10 d 5 = .ok v5 ∧
      getCol d 6 = .ok s6 ∧
      (0 ≤ v0 ∧ v0 < 2 ^ 32) ∧ (0 ≤ v1 ∧ v1 < 2 ^ 32) ∧ (0 ≤ v2 ∧ v2 < 2 ^ 32) ∧
      (0 ≤ v3 ∧ v3 < 2 ^ 32) ∧ (0 ≤ v4 ∧ v4 < 2 ^ 32) ∧ (0 ≤ v5 ∧ v5 < 2 ^ 8) ∧
      b = leBytes v0.toNat 4 ++ (leBytes v1.toNat 4 ++ (leBytes v2.toNat 4 ++
          (leBytes v3.toNat 4 ++ (leBytes v4.toNat 4 ++ (leBytes v5.toNat 1 ++
          packStr 2 s6))))) := by
  unfold blocks_record at h
  obtain ⟨v0, h0, h⟩ := exceptBind_ok h
  obtain ⟨v1, h1, h⟩ := exceptBind_ok h
  obtain ⟨v2, h2, h⟩ := exceptBind_ok h
  obtain ⟨v3, h3, h⟩ := exceptBind_ok h
  obtain ⟨v4, h4, h⟩ := exceptBind_ok h
  obtain ⟨v5, h5, h⟩ := exceptBind_ok h
  obtain ⟨s6, h6, h⟩ := exceptBind_ok h
  obtain ⟨b0, hb0, h⟩ := exceptBind_ok h
  obtain ⟨b1, hb1, h⟩ := exceptBind_ok h
  obtain ⟨b2, hb2, h⟩ := exceptBind_ok h
  obtain ⟨b3, hb3, h⟩ := exceptBind_ok h
  obtain ⟨b4, hb4, h⟩ := exceptBind_ok h
  obtain ⟨b5, hb5, h⟩ := exceptBind_ok h
  obtain ⟨r00, r01, e0⟩ := packU32_ok hb0
  obtain ⟨r10, r11, e1⟩ := packU32_ok hb1
  obtain ⟨r20, r21, e2⟩ := packU32_ok hb2
  obtain ⟨r30, r31, e3⟩ := packU32_ok hb3
  obtain ⟨r40, r41, e4⟩ := packU32_ok hb4
  obtain ⟨r50, r51, e5⟩ := packU8_ok hb5
  refine ⟨v0, v1, v2, v3, v4, v5, s6, h0, h1, h2, h3, h4, h5, h6,
    ⟨r00, r01⟩, ⟨r10, r11⟩, ⟨r20, r21⟩, ⟨r30, r31⟩, ⟨r40, r41⟩, ⟨r50, r51⟩, ?_⟩
  have hb := (Except.ok.inj h).symm
  subst e0; subst e1; subst e2; subst e3; subst e4; subst e5
  simpa [List.append_assoc] using hb

theorem aircraft_record_length {d : List String} {b : List Nat}
    (h : aircraft_record d = .ok b) : b.length = aircraft_rec_len := by
  obtain ⟨s0, s1, s2, s5, _, _, _, _, hb⟩ := aircraft_record_shape h
  subst hb
  simp [packStr_length, aircraft_rec_len]

theorem routes_record_length {d : List String} {b : List Nat}
    (h : routes_record d = .ok b) : b.length = routes_rec_len := by
  obtain ⟨s0, s4, _, _, hb⟩ := routes_record_shape h
  subst hb
  simp [packStr_length, routes_rec_len]

theorem airport_record_length {d : List String} {b : List Nat}
    (h : airport_record d = .ok b) : b.length = airport_rec_len := by
  obtain ⟨s2, s3, s1, s4, s5, f6, f7, b6, b7, _, _, _, _, _, _, _, _, _, hb⟩ :=
    airport_record_shape h
  subst hb
  simp [packStr_length, leBytes_length, airport_rec_len]

theorem blocks_record_length {d : List String} {b : List Nat}
    (h : blocks_record d = .ok b) : b.length = blocks_rec_len := by
  obtain ⟨v0, v1, v2, v3, v4, v5, s6, _, _, _, _, _, _, _, _, _, _, _, _, _, hb⟩ :=
    blocks_record_shape h
  subst hb
  simp [packStr_length, leBytes_length, blocks_rec_len]

/-! ## Binary Table Encoder lemmas, Claim C4 and Claim C10 -/

theorem encodeLoop_ok_length {recFunc : List String → Except PyErr (List Nat)} {recLen : Nat}
    (hf : ∀ d b, recFunc d = .ok b → b.length = recLen) :
    ∀ ds written, encodeLoop recFunc ds = (none, written) →
      written.length = ds.length * recLen := by
  intro ds
  induction ds with
  | nil =>
      intro w h
      unfold encodeLoop at h
      injection h with _ h2
      subst h2
      simp
  | cons d ds ih =>
      intro w h
      unfold encodeLoop at h
      cases hr : recFunc d with
      | error e =>
          rw [hr] at h
          injection h with h1 _
          exact Option.noConfusion h1
      | ok b =>
          rw [hr] at h
          cases hrest : encodeLoop recFunc ds with
          | mk r1 r2 =>
              rw [hrest] at h
              simp only at h
              injection h with h1 h2
              subst h2
              have hlen2 := ih r2 (by rw [hrest, h1])
              rw [List.length_append, hf d b hr, hlen2, List.length_cons]
              ring

theorem packHeader_shape {now : Int} {cnt recLen : Nat} {hdr : List Nat}
    (h : packHeader now cnt recLen = .ok hdr) :
    cnt < 2 ^ 32 ∧ recLen < 2 ^ 32 ∧
    hdr = packStr 12 bin_marker ++ (leBytes ((now % 2 ^ 64)).toNat 8 ++
      (leBytes cnt 4 ++ leBytes recLen 4)) := by
  unfold packHeader at h
  obtain ⟨ts, hq, h⟩ := exceptBind_ok h
  obtain ⟨c4, hc, h⟩ := exceptBind_ok h
  obtain ⟨l4, hl, h⟩ := exceptBind_ok h
  have hts := packQ_ok hq
  obtain ⟨_, hclt, hce⟩ := packU32_ok hc
  obtain ⟨_, hllt, hle⟩ := packU32_ok hl
  have hcnt : cnt < 2 ^ 32 := by exact_mod_cast hclt
  have hrl : recLen < 2 ^ 32 := by exact_mod_cast hllt
  refine ⟨hcnt, hrl, ?_⟩
  have hb := (Except.ok.inj h).symm
  subst hts
  rw [hce, hle] at hb
  simp only [Int.toNat_natCast] at hb
  simpa [List.append_assoc] using hb

theorem createBin_ok_parts {recFunc : List String → Except PyErr (List Nat)} {recLen : Nat}
    (hf : ∀ d b, recFunc d = .ok b → b.length = recLen)
    (rows : List (List String)) (now : Int) (disk : List Nat)
    (h : createBinDisk recFunc recLen rows now = (.ok (), disk)) :
    disk.length = 28 + (rows.length - 1) * recLen ∧
    disk.take 12 = to_bytes bin_marker ∧
    sliceBytes disk 20 4 = leBytes (rows.length - 1) 4 ∧
    sliceBytes disk 24 4 = leBytes recLen 4 := by
  cases rows with
  | nil =>
      simp only [createBinDisk] at h
      injection h with h1 _
      exact Except.noConfusion h1
  | cons hdr dataRows =>
      simp only [createBinDisk] at h
      cases hloop : encodeLoop recFunc dataRows with
      | mk r1 w =>
          rw [hloop] at h
          cases r1 with
          | some e =>
              injection h with h1 _
              exact Except.noConfusion h1
          | none =>
              cases hph : packHeader now dataRows.length recLen with
              | error e =>
                  rw [hph] at h
                  injection h with h1 _
                  exact Except.noConfusion h1
              | ok hdrB =>
                  rw [hph] at h
                  injection h with _ h2
                  subst h2
                  obtain ⟨hc32, hr32, hhdr⟩ := packHeader_shape hph
                  have hwlen : w.length = dataRows.length * recLen :=
                    encodeLoop_ok_length hf dataRows w hloop
                  subst hhdr
                  have hcount : (hdr :: dataRows).length - 1 = dataRows.length := by
                    simp
                  rw [hcount]
                  refine ⟨?_, ?_, ?_, ?_⟩
                  · simp [List.length_append, packStr_length, leBytes_length, hwlen]
                    ring
                  · simp only [List.append_assoc]
                    rw [List.take_append_eq_append_take, packStr_length]
                    norm_num
                    decide
                  · simp only [List.append_assoc]
                    rw [sliceBytes_append_shift _ _ 20 4 (by rw [packStr_length]; omega)]
                    rw [packStr_length]
                    rw [sliceBytes_append_shift _ _ 8 4 (by rw [leBytes_length])]
                    rw [leBytes_length]
                    rw [sliceBytes_here _ _ 4 (leBytes_length _ 4)]
                  · simp only [List.append_assoc]
                    rw [sliceBytes_append_shift _ _ 24 4 (by rw [packStr_length]; omega)]
                    rw [packStr_length]
                    rw [sliceBytes_append_shift _ _ 12 4 (by rw [leBytes_length]; omega)]
                    rw [leBytes_length]
                    rw [sliceBytes_append_shift _ _ 4 4 (by rw [leBytes_length])]
                    rw [leBytes_length]
                    rw [sliceBytes_here _ _ 4 (leBytes_length _ 4)]

/-- Claim C4: for every domain, after the binary-table encoder completes
successfully the produced file consists of a 28-byte header (12 magic bytes
equal to `BIN-dump1090`, an 8-byte signed little-endian epoch timestamp, a
u32 record count and a u32 record length) followed by exactly record_count
records of record_len bytes each, so `file_size = 28 + record_count *
record_len`, where record_count is the number of data rows (the header row,
index 0, is skipped and not counted). -/
theorem c4_header_integrity :
    (∀ rows now disk,
      createBinDisk aircraft_record aircraft_rec_len rows now = (.ok (), disk) →
        disk.length = 28 + (rows.length - 1) * aircraft_rec_len ∧
        disk.take 12 = to_bytes bin_marker ∧
        sliceBytes disk 20 4 = leBytes (rows.length - 1) 4 ∧
        sliceBytes disk 24 4 = leBytes aircraft_rec_len 4) ∧
    (∀ rows now disk,
      createBinDisk airport_record airport_rec_len rows now = (.ok (), disk) →
        disk.length = 28 + (rows.length - 1) * airport_rec_len ∧
        disk.take 12 = to_bytes bin_marker ∧
        sliceBytes disk 20 4 = leBytes (rows.length - 1) 4 ∧
        sliceBytes disk 24 4 = leBytes airport_rec_len 4) ∧
    (∀ rows now disk,
      createBinDisk routes_record routes_rec_len rows now = (.ok (), disk) →
        disk.length = 28 + (rows.length - 1) * routes_rec_len ∧
        disk.take 12 = to_bytes bin_marker ∧
        sliceBytes disk 20 4 = leBytes (rows.length - 1) 4 ∧
        sliceBytes disk 24 4 = leBytes routes_rec_len 4) ∧
    (∀ rows now disk,
      createBinDisk blocks_record blocks_rec_len rows now = (.ok (), disk) →
        disk.length = 28 + (rows.length - 1) * blocks_rec_len ∧
        disk.take 12 = to_bytes bin_marker ∧
        sliceBytes disk 20 4 = leBytes (rows.length - 1) 4 ∧
        sliceBytes disk 24 4 = leBytes blocks_rec_len 4) :=
  ⟨fun rows now disk h =>
      createBin_ok_parts (fun _ _ hb => aircraft_record_length hb) rows now disk h,
   fun rows now disk h =>
      createBin_ok_parts (fun _ _ hb => airport_record_length hb) rows now disk h,
   fun rows now disk h =>
      createBin_ok_parts (fun _ _ hb => routes_record_length hb) rows now disk h,
   fun rows now disk h =>
      createBin_ok_parts (fun _ _ hb => blocks_record_length hb) rows now disk h⟩

theorem c4_witness :
    createBinDisk blocks_record blocks_rec_len
        [["h"], ["400000", "43FFFF", "1", "400000", "FFC000", "0", "US"]] 0 =
      (.ok (), (createBinDisk blocks_record blocks_rec_len
        [["h"], ["400000", "43FFFF", "1", "400000", "FFC000", "0", "US"]] 0).2) ∧
    ((createBinDisk blocks_record blocks_rec_len
        [["h"], ["400000", "43FFFF", "1", "400000", "FFC000", "0", "US"]] 0).2.length =
      28 + ([["h"], ["400000", "43FFFF", "1", "400000", "FFC000", "0", "US"]].length - 1) *
        blocks_rec_len ∧
     (createBinDisk blocks_record blocks_rec_len
        [["h"], ["400000", "43FFFF", "1", "400000", "FFC000", "0", "US"]] 0).2.take 12 =
      to_bytes bin_marker ∧
     sliceBytes (createBinDisk blocks_record blocks_rec_len
        [["h"], ["400000", "43FFFF", "1", "400000", "FFC000", "0", "US"]] 0).2 20 4 =
      leBytes ([["h"], ["400000", "43FFFF", "1", "400000", "FFC000", "0", "US"]].length - 1) 4 ∧
     sliceBytes (createBinDisk blocks_record blocks_rec_len
        [["h"], ["400000", "43FFFF", "1", "400000", "FFC000", "0", "US"]] 0).2 24 4 =
      leBytes blocks_rec_len 4) :=
  ⟨rfl,
   c4_header_integrity.2.2.2
     [["h"], ["400000", "43FFFF", "1", "400000", "FFC000", "0", "US"]] 0
     (createBinDisk blocks_record blocks_rec_len
       [["h"], ["400000", "43FFFF", "1", "400000", "FFC000", "0", "US"]] 0).2 rfl⟩

theorem c10_counterexample :
    (createBinDisk blocks_record blocks_rec_len [] 0).1 = .error .nameError ∧
    (createBinDisk blocks_record blocks_rec_len [] 0).2 = [] ∧
    ¬ 28 ≤ (createBinDisk blocks_record blocks_rec_len [] 0).2.length :=
  ⟨rfl, rfl, by decide⟩

/-- Claim C10 (amended): when the merged CSV input contains no rows at all,
the encoder raises an unhandled error at header-patch time (the loop
counter used as the record count was never bound, a `NameError`), so no
header is ever written; since nothing was ever written after the seek past
the reserved header region, the output file left behind is empty (zero
bytes) — it does not contain 28 reserved bytes and in particular no magic
tag. The success path requires at least the header row to exist. -/
theorem c10_empty_input_amended :
    ∀ (recFunc : List String → Except PyErr (List Nat)) (recLen : Nat) (now : Int),
      createBinDisk recFunc recLen [] now = (.error .nameError, []) :=
  fun _ _ _ => rfl

/-! ## Round-trip lemmas and Claim C5 -/

theorem dropWhile_replicate_zero (k : Nat) (l : List Nat) :
    (List.replicate k 0 ++ l).dropWhile (· == 0) = l.dropWhile (· == 0) := by
  induction k with
  | zero => simp
  | succ k ih => simpa [List.replicate_succ] using ih

theorem stripZeroPad_append_replicate (xs : List Nat) (k : Nat) :
    stripZeroPad (xs ++ List.replicate k 0) = stripZeroPad xs := by
  simp only [stripZeroPad, List.reverse_append, List.reverse_replicate]
  rw [dropWhile_replicate_zero]

theorem stripZeroPad_of_getLast {bs : List Nat} (h : bs.getLast? ≠ some 0) :
    stripZeroPad bs = bs := by
  cases hb : bs.reverse with
  | nil =>
      have : bs = [] := by simpa using congrArg List.reverse hb
      subst this
      rfl
  | cons x xs =>
      have hx : bs.getLast? = some x := by
        rw [← List.head?_reverse, hb]
        rfl
      have hx0 : (x == 0) = false := by
        rcases eq_or_ne x 0 with rfl | hne
        · exact absurd hx h
        · simpa using hne
      unfold stripZeroPad
      rw [hb, List.dropWhile_cons, hx0]
      simp [← hb]

theorem decode_packStr (w : Nat) (s : String) :
    stripZeroPad (packStr w s) = stripZeroPad ((to_bytes s).take w) := by
  unfold packStr
  rw [List.take_append_eq_append_take, List.take_replicate]
  exact stripZeroPad_append_replicate _ _

theorem strFieldRT_pack (w : Nat) (s : String) :
    strFieldRT w s (stripZeroPad (packStr w s)) := by
  constructor
  · exact decode_packStr w s
  · intro hlen hlast
    rw [decode_packStr w s, List.take_of_length_le hlen]
    exact stripZeroPad_of_getLast hlast

theorem decodeStr_at (p rest : List Nat) (w : Nat) (hp : p.length = w) :
    decodeStrField (p ++ rest) 0 w = stripZeroPad p := by
  unfold decodeStrField
  rw [sliceBytes_here _ _ _ hp]

theorem slice_skip (p rest : List Nat) (off len w : Nat) (hp : p.length = w) (h : w ≤ off) :
    sliceBytes (p ++ rest) off len = sliceBytes rest (off - w) len := by
  rw [sliceBytes_append_shift p rest off len (by omega), hp]

theorem sliceBytes_all (p : List Nat) (w : Nat) (hp : p.length = w) :
    sliceBytes p 0 w = p := by
  unfold sliceBytes
  rw [List.drop_zero, List.take_of_length_le (le_of_eq hp)]

theorem decodeNum_at (p rest : List Nat) (w : Nat) (hp : p.length = w) :
    decodeNumField (p ++ rest) 0 w = leVal p := by
  unfold decodeNumField
  rw [sliceBytes_here _ _ _ hp]

theorem f32Assemble_lt (neg : Bool) (biased frac : Nat) :
    f32Assemble neg biased frac < 2 ^ 32 := by
  have h1 : min biased 255 ≤ 255 := Nat.min_le_right _ _
  have h2 : frac % 2 ^ 23 < 2 ^ 23 := Nat.mod_lt _ (by norm_num)
  unfold f32Assemble
  split <;> nlinarith

theorem f32bitsE_lt {f : PyFloat} {bits : Nat} (h : f32bitsE f = .ok bits) :
    bits < 2 ^ 32 := by
  cases f with
  | inf neg =>
      have : infBits neg = bits := Except.ok.inj h
      rw [← this]
      exact f32Assemble_lt _ _ _
  | nan neg =>
      have : nanBits neg = bits := Except.ok.inj h
      rw [← this]
      exact f32Assemble_lt _ _ _
  | finite neg m e10 =>
      simp only [f32bitsE] at h
      cases h64 : decTo64 m e10 with
      | none =>
          rw [h64] at h
          have : infBits neg = bits := Except.ok.inj h
          rw [← this]
          exact f32Assemble_lt _ _ _
      | some p64 =>
          obtain ⟨m64, g64⟩ := p64
          rw [h64] at h
          dsimp only at h
          cases h32 : dyTo32 m64 g64 with
          | none =>
              rw [h32] at h
              exact Except.noConfusion h
          | some p32 =>
              obtain ⟨m32, g32⟩ := p32
              rw [h32] at h
              dsimp only at h
              have hb : f32bitsFin neg m32 g32 = bits := Except.ok.inj h
              rw [← hb]
              unfold f32bitsFin
              split
              · exact f32Assemble_lt _ _ _
              · split
                · exact f32Assemble_lt _ _ _
                · exact f32Assemble_lt _ _ _

theorem aircraft_roundtrip {d : List String} {buf : List Nat}
    (h : aircraft_record d = .ok buf) :
    ∃ s0 s1 s2 s5, getCol d 0 = .ok s0 ∧ getCol d 1 = .ok s1 ∧
      getCol d 2 = .ok s2 ∧ getCol d 5 = .ok s5 ∧
      strFieldRT 6 s0 (decodeStrField buf 0 6) ∧
      strFieldRT 10 s1 (decodeStrField buf 6 10) ∧
      strFieldRT 10 s2 (decodeStrField buf 16 10) ∧
      strFieldRT 40 s5 (decodeStrField buf 26 40) := by
  obtain ⟨s0, s1, s2, s5, h0, h1, h2, h5, hbuf⟩ := aircraft_record_shape h
  subst hbuf
  refine ⟨s0, s1, s2, s5, h0, h1, h2, h5, ?_, ?_, ?_, ?_⟩
  · rw [decodeStr_at _ _ _ (packStr_length _ _)]
    exact strFieldRT_pack _ _
  · unfold decodeStrField
    rw [slice_skip _ _ 6 10 6 (packStr_length _ _) (by norm_num)]
    norm_num
    rw [sliceBytes_here _ _ _ (packStr_length _ _)]
    exact strFieldRT_pack _ _
  · unfold decodeStrField
    rw [slice_skip _ _ 16 10 6 (packStr_length _ _) (by norm_num)]
    norm_num
    rw [slice_skip _ _ 10 10 10 (packStr_length _ _) (by norm_num)]
    norm_num
    rw [sliceBytes_here _ _ _ (packStr_length _ _)]
    exact strFieldRT_pack _ _
  · unfold decodeStrField
    rw [slice_skip _ _ 26 40 6 (packStr_length _ _) (by norm_num)]
    norm_num
    rw [slice_skip _ _ 20 40 10 (packStr_length _ _) (by norm_num)]
    norm_num
    rw [slice_skip _ _ 10 40 10 (packStr_length _ _) (by norm_num)]
    norm_num
    rw [sliceBytes_all _ _ (packStr_length _ _)]
    exact strFieldRT_pack _ _

theorem routes_roundtrip {d : List String} {buf : List Nat}
    (h : routes_record d = .ok buf) :
    ∃ s0 s4, getCol d 0 = .ok s0 ∧ getCol d 4 = .ok s4 ∧
      strFieldRT 8 s0 (decodeStrField buf 0 8) ∧
      strFieldRT 20 s4 (decodeStrField buf 8 20) := by
  obtain ⟨s0, s4, h0, h4, hbuf⟩ := routes_record_shape h
  subst hbuf
  refine ⟨s0, s4, h0, h4, ?_, ?_⟩
  · rw [decodeStr_at _ _ _ (packStr_length _ _)]
    exact strFieldRT_pack _ _
  · unfold decodeStrField
    rw [slice_skip _ _ 8 20 8 (packStr_length _ _) (by norm_num)]
    norm_num
    have hlast : sliceBytes (packStr 20 s4) 0 20 = packStr 20 s4 := by
      unfold sliceBytes
      rw [List.drop_zero, List.take_of_length_le (by rw [packStr_length])]
    rw [hlast]
    exact strFieldRT_pack _ _

theorem airport_roundtrip {d : List String} {buf : List Nat}
    (h : airport_record d = .ok buf) :
    ∃ s2 s3 s1 s4 s5 f6 f7 bits6 bits7,
      getCol d 2 = .ok s2 ∧ getCol d 3 = .ok s3 ∧ getCol d 1 = .ok s1 ∧
      getCol d 4 = .ok s4 ∧ getCol d 5 = .ok s5 ∧
      pyFloatAt d 6 = .ok f6 ∧ pyFloatAt d 7 = .ok f7 ∧
      f32bitsE f6 = .ok bits6 ∧ f32bitsE f7 = .ok bits7 ∧
      strFieldRT 4 s2 (decodeStrField buf 0 4) ∧
      strFieldRT 3 s3 (decodeStrField buf 4 3) ∧
      strFieldRT 40 s1 (decodeStrField buf 7 40) ∧
      strFieldRT 20 s4 (decodeStrField buf 47 20) ∧
      strFieldRT 2 s5 (decodeStrField buf 67 2) ∧
      decodeNumField buf 69 4 = bits6 ∧
      decodeNumField buf 73 4 = bits7 := by
  obtain ⟨s2, s3, s1, s4, s5, f6, f7, bits6, bits7,
    h2, h3, h1, h4, h5, h6, h7, hb6, hb7, hbuf⟩ := airport_record_shape h
  subst hbuf
  refine ⟨s2, s3, s1, s4, s5, f6, f7, bits6, bits7,
    h2, h3, h1, h4, h5, h6, h7, hb6, hb7, ?_, ?_, ?_, ?_, ?_, ?_, ?_⟩
  · rw [decodeStr_at _ _ _ (packStr_length _ _)]
    exact strFieldRT_pack _ _
  · unfold decodeStrField
    rw [slice_skip _ _ 4 3 4 (packStr_length _ _) (by norm_num)]
    norm_num
    rw [sliceBytes_here _ _ _ (packStr_length _ _)]
    exact strFieldRT_pack _ _
  · unfold decodeStrField
    rw [slice_skip _ _ 7 40 4 (packStr_length _ _) (by norm_num)]
    norm_num
    rw [slice_skip _ _ 3 40 3 (packStr_length _ _) (by norm_num)]
    norm_num
    rw [sliceBytes_here _ _ _ (packStr_length _ _)]
    exact strFieldRT_pack _ _
  · unfold decodeStrField
    rw [slice_skip _ _ 47 20 4 (packStr_length _ _) (by norm_num)]
    norm_num
    rw [slice_skip _ _ 43 20 3 (packStr_length _ _) (by norm_num)]
    norm_num
    rw [slice_skip _ _ 40 20 40 (packStr_length _ _) (by norm_num)]
    norm_num
    rw [sliceBytes_here _ _ _ (packStr_length _ _)]
    exact strFieldRT_pack _ _
  · unfold decodeStrField
    rw [slice_skip _ _ 67 2 4 (packStr_length _ _) (by norm_num)]
    norm_num
    rw [slice_skip _ _ 63 2 3 (packStr_length _ _) (by norm_num)]
    norm_num
    rw [slice_skip _ _ 60 2 40 (packStr_length _ _) (by norm_num)]
    norm_num
    rw [slice_skip _ _ 20 2 20 (packStr_length _ _) (by norm_num)]
    norm_num
    rw [sliceBytes_here _ _ _ (packStr_length _ _)]
    exact strFieldRT_pack _ _
  · unfold decodeNumField
    rw [slice_skip _ _ 69 4 4 (packStr_length _ _) (by norm_num)]
    norm_num
    rw [slice_skip _ _ 65 4 3 (packStr_length _ _) (by norm_num)]
    norm_num
    rw [slice_skip _ _ 62 4 40 (packStr_length _ _) (by norm_num)]
    norm_num
    rw [slice_skip _ _ 22 4 20 (packStr_length _ _) (by norm_num)]
    norm_num
    rw [slice_skip _ _ 2 4 2 (packStr_length _ _) (by norm_num)]
    norm_num
    rw [sliceBytes_here _ _ _ (leBytes_length _ _)]
    rw [leVal_leBytes_of_lt]
    have hlt := f32bitsE_lt hb6
    norm_num at hlt ⊢
    omega
  · unfold decodeNumField
    rw [slice_skip _ _ 73 4 4 (packStr_length _ _) (by norm_num)]
    norm_num
    rw [slice_skip _ _ 69 4 3 (packStr_length _ _) (by norm_num)]
    norm_num
    rw [slice_skip _ _ 66 4 40 (packStr_length _ _) (by norm_num)]
    norm_num
    rw [slice_skip _ _ 26 4 20 (packStr_length _ _) (by norm_num)]
    norm_num
    rw [slice_skip _ _ 6 4 2 (packStr_length _ _) (by norm_num)]
    norm_num
    rw [slice_skip _ _ 4 4 4 (leBytes_length _ _) (by norm_num)]
    norm_num
    rw [sliceBytes_all _ _ (leBytes_length _ _)]
    rw [leVal_leBytes_of_lt]
    have hlt := f32bitsE_lt hb7
    norm_num at hlt ⊢
    omega

theorem blocks_roundtrip {d : List String} {buf : List Nat}
    (h : blocks_record d = .ok buf) :
    ∃ v0 v1 v2 v3 v4 v5 s6,
      pyIntAt 16 d 0 = .ok v0 ∧ pyIntAt 16 d 1 = .ok v1 ∧ pyIntAt 10 d 2 = .ok v2 ∧
      pyIntAt 16 d 3 = .ok v3 ∧ pyIntAt 16 d 4 = .ok v4 ∧ pyIntAt 10 d 5 = .ok v5 ∧
      getCol d 6 = .ok s6 ∧
      decodeNumField buf 0 4 = v0.toNat ∧
      decodeNumField buf 4 4 = v1.toNat ∧
      decodeNumField buf 8 4 = v2.toNat ∧
      decodeNumField buf 12 4 = v3.toNat ∧
      decodeNumField buf 16 4 = v4.toNat ∧
      decodeNumField buf 20 1 = v5.toNat ∧
      strFieldRT 2 s6 (decodeStrField buf 21 2) := by
  obtain ⟨v0, v1, v2, v3, v4, v5, s6, h0, h1, h2, h3, h4, h5, h6,
    r0, r1, r2, r3, r4, r5, hbuf⟩ := blocks_record_shape h
  subst hbuf
  refine ⟨v0, v1, v2, v3, v4, v5, s6, h0, h1, h2, h3, h4, h5, h6,
    ?_, ?_, ?_, ?_, ?_, ?_, ?_⟩
  · rw [decodeNum_at _ _ _ (leBytes_length _ _)]
    rw [leVal_leBytes_of_lt]
    norm_num
    omega
  · unfold decodeNumField
    rw [slice_skip _ _ 4 4 4 (leBytes_length _ _) (by norm_num)]
    norm_num
    rw [sliceBytes_here _ _ _ (leBytes_length _ _)]
    rw [leVal_leBytes_of_lt]
    norm_num
    omega
  · unfold decodeNumField
    rw [slice_skip _ _ 8 4 4 (leBytes_length _ _) (by norm_num)]
    norm_num
    rw [slice_skip _ _ 4 4 4 (leBytes_length _ _) (by norm_num)]
    norm_num
    rw [sliceBytes_here _ _ _ (leBytes_length _ _)]
    rw [leVal_leBytes_of_lt]
    norm_num
    omega
  · unfold decodeNumField
    rw [slice_skip _ _ 12 4 4 (leBytes_length _ _) (by norm_num)]
    norm_num
    rw [slice_skip _ _ 8 4 4 (leBytes_length _ _) (by norm_num)]
    norm_num
    rw [slice_skip _ _ 4 4 4 (leBytes_length _ _) (by norm_num)]
    norm_num
    rw [sliceBytes_here _ _ _ (leBytes_length _ _)]
    rw [leVal_leBytes_of_lt]
    norm_num
    omega
  · unfold decodeNumField
    rw [slice_skip _ _ 16 4 4 (leBytes_length _ _) (by norm_num)]
    norm_num
    rw [slice_skip _ _ 12 4 4 (leBytes_length _ _) (by norm_num)]
    norm_num
    rw [slice_skip _ _ 8 4 4 (leBytes_length _ _) (by norm_num)]
    norm_num
    rw [slice_skip _ _ 4 4 4 (leBytes_length _ _) (by norm_num)]
    norm_num
    rw [sliceBytes_here _ _ _ (leBytes_length _ _)]
    rw [leVal_leBytes_of_lt]
    norm_num
    omega
  · unfold decodeNumField
    rw [slice_skip _ _ 20 1 4 (leBytes_length _ _) (by norm_num)]
    norm_num
    rw [slice_skip _ _ 16 1 4 (leBytes_length _ _) (by norm_num)]
    norm_num
    rw [slice_skip _ _ 12 1 4 (leBytes_length _ _) (by norm_num)]
    norm_num
    rw [slice_skip _ _ 8 1 4 (leBytes_length _ _) (by norm_num)]
    norm_num
    rw [slice_skip _ _ 4 1 4 (leBytes_length _ _) (by norm_num)]
    norm_num
    rw [sliceBytes_here _ _ _ (leBytes_length _ _)]
    rw [leVal_leBytes_of_lt]
    norm_num
    omega
  · unfold decodeStrField
    rw [slice_skip _ _ 21 2 4 (leBytes_length _ _) (by norm_num)]
    norm_num
    rw [slice_skip _ _ 17 2 4 (leBytes_length _ _) (by norm_num)]
    norm_num
    rw [slice_skip _ _ 13 2 4 (leBytes_length _ _) (by norm_num)]
    norm_num
    rw [slice_skip _ _ 9 2 4 (leBytes_length _ _) (by norm_num)]
    norm_num
    rw [slice_skip _ _ 5 2 4 (leBytes_length _ _) (by norm_num)]
    norm_num
    rw [slice_skip _ _ 1 2 1 (leBytes_length _ _) (by norm_num)]
    norm_num
    rw [sliceBytes_all _ _ (packStr_length _ _)]
    exact strFieldRT_pack _ _

theorem c5_counterexample :
    aircraft_record ["", String.mk [Char.ofNat 65, Char.ofNat 0], "", "", "", ""] =
      .ok (packStr 6 "" ++ (packStr 10 (String.mk [Char.ofNat 65, Char.ofNat 0]) ++
           (packStr 10 "" ++ packStr 40 ""))) ∧
    (to_bytes (String.mk [Char.ofNat 65, Char.ofNat 0])).length ≤ 10 ∧
    decodeStrField (packStr 6 "" ++ (packStr 10 (String.mk [Char.ofNat 65, Char.ofNat 0]) ++
        (packStr 10 "" ++ packStr 40 ""))) 6 10 ≠
      to_bytes (String.mk [Char.ofNat 65, Char.ofNat 0]) :=
  ⟨rfl, by decide, by decide⟩

/-- Claim C5 (amended): for every row accepted by a domain's record encoder,
splitting the produced fixed-width buffer at the declared field widths,
interpreting numeric fields little-endian and stripping trailing 0x00 bytes
from string fields reproduces every field of the row — numeric fields
exactly (the parsed integer, or the binary32 bit pattern for floats), and a
string field as its encoding truncated to the field width with trailing
0x00 bytes stripped; in particular a string field is reproduced exactly
whenever its encoding fits the width and does not itself end in a 0x00
byte. (The stripping conflates a field's own trailing 0x00 bytes with
padding, so such fields — and not only over-width ones — are the exceptions
to exact reproduction.) -/
theorem c5_roundtrip_amended :
    (∀ (d : List String) (buf : List Nat), aircraft_record d = .ok buf →
      ∃ s0 s1 s2 s5, getCol d 0 = .ok s0 ∧ getCol d 1 = .ok s1 ∧
        getCol d 2 = .ok s2 ∧ getCol d 5 = .ok s5 ∧
        strFieldRT 6 s0 (decodeStrField buf 0 6) ∧
        strFieldRT 10 s1 (decodeStrField buf 6 10) ∧
        strFieldRT 10 s2 (decodeStrField buf 16 10) ∧
        strFieldRT 40 s5 (decodeStrField buf 26 40)) ∧
    (∀ (d : List String) (buf : List Nat), airport_record d = .ok buf →
      ∃ s2 s3 s1 s4 s5 f6 f7 bits6 bits7,
        getCol d 2 = .ok s2 ∧ getCol d 3 = .ok s3 ∧ getCol d 1 = .ok s1 ∧
        getCol d 4 = .ok s4 ∧ getCol d 5 = .ok s5 ∧
        pyFloatAt d 6 = .ok f6 ∧ pyFloatAt d 7 = .ok f7 ∧
        f32bitsE f6 = .ok bits6 ∧ f32bitsE f7 = .ok bits7 ∧
        strFieldRT 4 s2 (decodeStrField buf 0 4) ∧
        strFieldRT 3 s3 (decodeStrField buf 4 3) ∧
        strFieldRT 40 s1 (decodeStrField buf 7 40) ∧
        strFieldRT 20 s4 (decodeStrField buf 47 20) ∧
        strFieldRT 2 s5 (decodeStrField buf 67 2) ∧
        decodeNumField buf 69 4 = bits6 ∧
        decodeNumField buf 73 4 = bits7) ∧
    (∀ (d : List String) (buf : List Nat), routes_record d = .ok buf →
      ∃ s0 s4, getCol d 0 = .ok s0 ∧ getCol d 4 = .ok s4 ∧
        strFieldRT 8 s0 (decodeStrField buf 0 8) ∧
        strFieldRT 20 s4 (decodeStrField buf 8 20)) ∧
    (∀ (d : List String) (buf : List Nat), blocks_record d = .ok buf →
      ∃ v0 v1 v2 v3 v4 v5 s6,
        pyIntAt 16 d 0 = .ok v0 ∧ pyIntAt 16 d 1 = .ok v1 ∧ pyIntAt 10 d 2 = .ok v2 ∧
        pyIntAt 16 d 3 = .ok v3 ∧ pyIntAt 16 d 4 = .ok v4 ∧ pyIntAt 10 d 5 = .ok v5 ∧
        getCol d 6 = .ok s6 ∧
        decodeNumField buf 0 4 = v0.toNat ∧
        decodeNumField buf 4 4 = v1.toNat ∧
        decodeNumField buf 8 4 = v2.toNat ∧
        decodeNumField buf 12 4 = v3.toNat ∧
        decodeNumField buf 16 4 = v4.toNat ∧
        decodeNumField buf 20 1 = v5.toNat ∧
        strFieldRT 2 s6 (decodeStrField buf 21 2)) :=
  ⟨fun _ _ h => aircraft_roundtrip h, fun _ _ h => airport_roundtrip h,
   fun _ _ h => routes_roundtrip h, fun _ _ h => blocks_roundtrip h⟩

theorem c5_witness :
    routes_record ["SAS123", "x", "y", "z", "ENGM-ESSA"] =
      .ok (packStr 8 "SAS123" ++ packStr 20 "ENGM-ESSA") ∧
    (∃ s0 s4, getCol ["SAS123", "x", "y", "z", "ENGM-ESSA"] 0 = .ok s0 ∧
      getCol ["SAS123", "x", "y", "z", "ENGM-ESSA"] 4 = .ok s4 ∧
      strFieldRT 8 s0
        (decodeStrField (packStr 8 "SAS123" ++ packStr 20 "ENGM-ESSA") 0 8) ∧
      strFieldRT 20 s4
        (decodeStrField (packStr 8 "SAS123" ++ packStr 20 "ENGM-ESSA") 8 20)) :=
  ⟨rfl, c5_roundtrip_amended.2.2.1 ["SAS123", "x", "y", "z", "ENGM-ESSA"]
    (packStr 8 "SAS123" ++ packStr 20 "ENGM-ESSA") rfl⟩

/-! ## Generated validation checker lemmas and Claim C6 -/

theorem checkLoop_eq_countP (viol : α → α → Bool) :
    ∀ (rs : List α) (prev : α),
      checkLoop viol prev rs = ((prev :: rs).zip rs).countP (fun p => viol p.1 p.2) := by
  intro rs
  induction rs with
  | nil => intro prev; rfl
  | cons r rs ih =>
      intro prev
      simp only [checkLoop, List.zip_cons_cons, List.countP_cons, ih r]
      by_cases hv : viol prev r = true <;> simp [hv] <;> omega

theorem runChecker_eq_countP (viol : α → α → Bool) (recs : List α) :
    runChecker viol recs = (recs.zip recs.tail).countP (fun p => viol p.1 p.2) := by
  cases recs with
  | nil => rfl
  | cons r rs => exact checkLoop_eq_countP viol rs r

theorem checkerExit_eq_zero_iff (viol : α → α → Bool) (recs : List α) :
    checkerExit viol recs = 0 ↔ runChecker viol recs = 0 := by
  unfold checkerExit
  split
  · simp_all
  · simp_all

theorem strnicmp_self : ∀ (k : List Nat) (n : Nat), strnicmp k k n = 0 := by
  intro k
  induction k with
  | nil => intro n; cases n <;> rfl
  | cons x xs ih =>
      intro n
      cases n with
      | zero => rfl
      | succ n =>
          simp only [strnicmp, ne_eq, not_true_eq_false, if_false, ite_self]
          by_cases hx : byteLower x = 0 <;> simp [hx, ih n]

theorem c6_counterexample :
    runChecker (strViol 6) [[65, 0, 0, 0, 0, 0], [65, 0, 0, 0, 0, 0]] = 1 ∧
    bytesLt [65, 0, 0, 0, 0, 0] [65, 0, 0, 0, 0, 0] = false ∧
    ([[65, 0, 0, 0, 0, 0], [65, 0, 0, 0, 0, 0]].zip
        ([[65, 0, 0, 0, 0, 0], [65, 0, 0, 0, 0, 0]] : List (List Nat)).tail).countP
      (fun p => bytesLt p.2 p.1) = 0 :=
  ⟨by decide, by decide, by decide⟩

/-- Claim C6 (amended): in the generated checker, the total violation count
is the number of indices i >= 1 whose record, paired with record i-1,
satisfies the generated test — which for the string-keyed domains counts
record i as a violation exactly when its key field's first byte is non-zero
and `strnicmp (key[i-1], key[i], w) >= 0` (a case-insensitive, NUL-stopping
comparison in which *equal* keys also count as violations), and for the
allocation-block domain exactly when `start[i-1] > start[i]` (numeric);
the exit code is 0 iff the total violation count is 0. -/
theorem c6_checker_amended :
    (∀ (w : Nat) (recs : List (List Nat)),
      runChecker (strViol w) recs =
        (recs.zip recs.tail).countP (fun p => strViol w p.1 p.2)) ∧
    (∀ starts : List Nat,
      runChecker blkViol starts =
        (starts.zip starts.tail).countP (fun p => blkViol p.1 p.2)) ∧
    (∀ (w : Nat) (recs : List (List Nat)),
      checkerExit (strViol w) recs = 0 ↔ runChecker (strViol w) recs = 0) ∧
    (∀ starts : List Nat,
      checkerExit blkViol starts = 0 ↔ runChecker blkViol starts = 0) ∧
    (∀ p r : Nat, blkViol p r = true ↔ r < p) ∧
    (∀ (w : Nat) (k : List Nat), k.headD 0 ≠ 0 → strViol w k k = true) :=
  ⟨fun w recs => runChecker_eq_countP (strViol w) recs,
   fun starts => runChecker_eq_countP blkViol starts,
   fun w recs => checkerExit_eq_zero_iff (strViol w) recs,
   fun starts => checkerExit_eq_zero_iff blkViol starts,
   fun p r => by simp [blkViol],
   fun w k hk => by
     have hk2 : k.head?.getD 0 ≠ 0 := by cases k <;> simpa using hk
     simp [strViol, strnicmp_self, hk2]⟩

theorem c6_witness :
    ([65] : List Nat).headD 0 ≠ 0 ∧ strViol 6 [65] [65] = true :=
  ⟨by decide, c6_checker_amended.2.2.2.2.2 6 [65] (by decide)⟩

/-! ## Fragment discovery failure mode: Claim C7 -/

theorem c7_counterexample :
    walkRel (FSEntry.dir "aircraft" []) = [] ∧
    mergeRun (some (FSEntry.dir "aircraft" [])) = .ok [] :=
  ⟨rfl, rfl⟩

/-- Claim C7 (amended): the merge raises `FileNotFoundError` (the spec's
`NotFoundError`) only when the domain root directory itself does not exist
(`os.listdir` fails); when the root exists but zero fragment files match
the domain glob, the merge succeeds and produces an empty merged dataset
(not even a header line) rather than failing. -/
theorem c7_notfound_amended :
    mergeRun none = .error .fileNotFound ∧
    (∀ t : FSEntry, walkRel t = [] → mergeRun (some t) = .ok []) := by
  refine ⟨rfl, ?_⟩
  intro t ht
  simp [mergeRun, mergeOutput, ht]

theorem c7_witness :
    walkRel (FSEntry.dir "routes" [FSEntry.file "notes.txt" "h" []]) = [] ∧
    mergeRun (some (FSEntry.dir "routes" [FSEntry.file "notes.txt" "h" []])) = .ok [] :=
  ⟨rfl, c7_notfound_amended.2 (FSEntry.dir "routes" [FSEntry.file "notes.txt" "h" []]) rfl⟩

/-! ## Encoder error classification (Claim C8) -/

theorem ok_bind {α β : Type} (a : α) (f : α → Except PyErr β) :
    (Except.ok a >>= f) = f a := rfl

theorem error_bind {α β : Type} (e : PyErr) (f : α → Except PyErr β) :
    ((Except.error e : Except PyErr α) >>= f) = .error e := rfl

theorem getCol_none {d : List String} {i : Nat} (h : d.get? i = none) :
    getCol d i = .error .schemaError := by
  unfold getCol
  rw [h]

theorem getCol_some {d : List String} {i : Nat} {s : String} (h : d.get? i = some s) :
    getCol d i = .ok s := by
  unfold getCol
  rw [h]

theorem get?_some_of_lt {d : List String} {i : Nat} (h : i < d.length) :
    ∃ s, d.get? i = some s := by
  cases hg : d.get? i with
  | none => exact absurd (List.get?_eq_none.mp hg) (by omega)
  | some s => exact ⟨s, rfl⟩

theorem get?_none_of_le {d : List String} {i : Nat} (h : d.length ≤ i) :
    d.get? i = none :=
  List.get?_eq_none.mpr h

theorem length_gt_of_get?_some {d : List String} {i : Nat} {s : String}
    (h : d.get? i = some s) : i < d.length := by
  by_contra hc
  rw [get?_none_of_le (by omega)] at h
  exact Option.noConfusion h

theorem pyIntAt_none {base : Nat} {d : List String} {i : Nat} (h : d.get? i = none) :
    pyIntAt base d i = .error .schemaError := by
  unfold pyIntAt
  rw [getCol_none h]
  rfl

theorem pyIntAt_bad {base : Nat} {d : List String} {i : Nat} {s : String}
    (h : d.get? i = some s) (hp : pyIntCore base s.data = none) :
    pyIntAt base d i = .error .formatError := by
  unfold pyIntAt
  rw [getCol_some h, ok_bind, hp]

theorem pyIntAt_okv {base : Nat} {d : List String} {i : Nat} {s : String} {v : Int}
    (h : d.get? i = some s) (hp : pyIntCore base s.data = some v) :
    pyIntAt base d i = .ok v := by
  unfold pyIntAt
  rw [getCol_some h, ok_bind, hp]

theorem pyFloatAt_none {d : List String} {i : Nat} (h : d.get? i = none) :
    pyFloatAt d i = .error .schemaError := by
  unfold pyFloatAt
  rw [getCol_none h]
  rfl

theorem pyFloatAt_bad {d : List String} {i : Nat} {s : String}
    (h : d.get? i = some s) (hp : pyFloatCore s.data = none) :
    pyFloatAt d i = .error .formatError := by
  unfold pyFloatAt
  rw [getCol_some h, ok_bind, hp]

theorem pyFloatAt_okv {d : List String} {i : Nat} {s : String} {f : PyFloat}
    (h : d.get? i = some s) (hp : pyFloatCore s.data = some f) :
    pyFloatAt d i = .ok f := by
  unfold pyFloatAt
  rw [getCol_some h, ok_bind, hp]

theorem packU32_pos {v : Int} (h : 0 ≤ v ∧ v < 2 ^ 32) :
    packU32 v = .ok (leBytes v.toNat 4) := by
  unfold packU32
  rw [if_pos h]

theorem packU8_pos {v : Int} (h : 0 ≤ v ∧ v < 2 ^ 8) :
    packU8 v = .ok (leBytes v.toNat 1) := by
  unfold packU8
  rw [if_pos h]

theorem aircraft_classify (d : List String) :
    (aircraft_record d = .error .schemaError ↔ d.length < 6) ∧
    ((∃ b, aircraft_record d = .ok b ∧ b.length = aircraft_rec_len) ↔ 6 ≤ d.length) := by
  by_cases hlen : 6 ≤ d.length
  · obtain ⟨s0, hg0⟩ := get?_some_of_lt (d := d) (i := 0) (by omega)
    obtain ⟨s1, hg1⟩ := get?_some_of_lt (d := d) (i := 1) (by omega)
    obtain ⟨s2, hg2⟩ := get?_some_of_lt (d := d) (i := 2) (by omega)
    obtain ⟨s5, hg5⟩ := get?_some_of_lt (d := d) (i := 5) (by omega)
    have he : aircraft_record d =
        .ok (packStr 6 s0 ++ packStr 10 s1 ++ packStr 10 s2 ++ packStr 40 s5) := by
      unfold aircraft_record
      simp only [getCol_some hg0, getCol_some hg1, getCol_some hg2, getCol_some hg5,
        ok_bind]
      rfl
    constructor
    · rw [he]
      constructor
      · intro h; exact Except.noConfusion h
      · omega
    · constructor
      · intro _; exact hlen
      · intro _
        exact ⟨_, he, by simp [packStr_length, aircraft_rec_len]⟩
  · have hsch : aircraft_record d = .error .schemaError := by
      unfold aircraft_record
      cases hg0 : d.get? 0 with
      | none => simp only [getCol_none hg0, error_bind]
      | some s0 =>
          cases hg1 : d.get? 1 with
          | none => simp only [getCol_some hg0, getCol_none hg1, ok_bind, error_bind]
          | some s1 =>
              cases hg2 : d.get? 2 with
              | none =>
                  simp only [getCol_some hg0, getCol_some hg1, getCol_none hg2,
                    ok_bind, error_bind]
              | some s2 =>
                  have hg5 : d.get? 5 = none := get?_none_of_le (by omega)
                  simp only [getCol_some hg0, getCol_some hg1, getCol_some hg2,
                    getCol_none hg5, ok_bind, error_bind]
    constructor
    · rw [hsch]
      constructor
      · intro _; omega
      · intro _; rfl
    · rw [hsch]
      constructor
      · rintro ⟨b, hb, _⟩; exact Except.noConfusion hb
      · omega

theorem routes_classify (d : List String) :
    (routes_record d = .error .schemaError ↔ d.length < 5) ∧
    ((∃ b, routes_record d = .ok b ∧ b.length = routes_rec_len) ↔ 5 ≤ d.length) := by
  by_cases hlen : 5 ≤ d.length
  · obtain ⟨s0, hg0⟩ := get?_some_of_lt (d := d) (i := 0) (by omega)
    obtain ⟨s4, hg4⟩ := get?_some_of_lt (d := d) (i := 4) (by omega)
    have he : routes_record d = .ok (packStr 8 s0 ++ packStr 20 s4) := by
      unfold routes_record
      simp only [getCol_some hg0, getCol_some hg4, ok_bind]
      rfl
    constructor
    · rw [he]
      constructor
      · intro h; exact Except.noConfusion h
      · omega
    · constructor
      · intro _; exact hlen
      · intro _
        exact ⟨_, he, by simp [packStr_length, routes_rec_len]⟩
  · have hsch : routes_record d = .error .schemaError := by
      unfold routes_record
      cases hg0 : d.get? 0 with
      | none => simp only [getCol_none hg0, error_bind]
      | some s0 =>
          have hg4 : d.get? 4 = none := get?_none_of_le (by omega)
          simp only [getCol_some hg0, getCol_none hg4, ok_bind, error_bind]
    constructor
    · rw [hsch]
      constructor
      · intro _; omega
      · intro _; rfl
    · rw [hsch]
      constructor
      · rintro ⟨b, hb, _⟩; exact Except.noConfusion hb
      · omega

theorem colParsesB_false {base : Nat} {d : List String} {i : Nat}
    (h : colParsesB base d i = false) :
    ∃ s, d.get? i = some s ∧ pyIntCore base s.data = none := by
  unfold colParsesB at h
  cases hg : d.get? i with
  | none => simp only [hg] at h; exact Bool.noConfusion h
  | some s =>
      simp only [hg] at h
      cases hp : pyIntCore base s.data with
      | none => exact ⟨s, rfl, hp⟩
      | some v => simp only [hp, Option.isSome] at h; exact Bool.noConfusion h

theorem colParsesB_some {base : Nat} {d : List String} {i : Nat} {s : String}
    (hg : d.get? i = some s) (h : colParsesB base d i = true) :
    ∃ v, pyIntCore base s.data = some v := by
  unfold colParsesB at h
  simp only [hg] at h
  cases hp : pyIntCore base s.data with
  | none => simp only [hp, Option.isSome] at h; exact Bool.noConfusion h
  | some v => exact ⟨v, rfl⟩

theorem colInRangeB_val {base : Nat} {d : List String} {i : Nat} {s : String} {v : Int}
    {bound : Int} (hg : d.get? i = some s) (hp : pyIntCore base s.data = some v)
    (h : colInRangeB base d i bound = true) : 0 ≤ v ∧ v < bound := by
  unfold colInRangeB at h
  simp only [hg, hp] at h
  exact of_decide_eq_true h

theorem colInRangeB_false {base : Nat} {d : List String} {i : Nat} {bound : Int}
    (h : colInRangeB base d i bound = false) :
    ∃ s v, d.get? i = some s ∧ pyIntCore base s.data = some v ∧ ¬ (0 ≤ v ∧ v < bound) := by
  unfold colInRangeB at h
  cases hg : d.get? i with
  | none => simp only [hg] at h; exact Bool.noConfusion h
  | some s =>
      simp only [hg] at h
      cases hp : pyIntCore base s.data with
      | none => simp only [hp] at h; exact Bool.noConfusion h
      | some v =>
          simp only [hp] at h
          exact ⟨s, v, rfl, hp, of_decide_eq_false h⟩

theorem colParsesB_of_none {base : Nat} {d : List String} {i : Nat}
    (hg : d.get? i = none) : colParsesB base d i = true := by
  unfold colParsesB
  simp only [hg]

theorem colParsesB_of_parse {base : Nat} {d : List String} {i : Nat} {s : String} {v : Int}
    (hg : d.get? i = some s) (hp : pyIntCore base s.data = some v) :
    colParsesB base d i = true := by
  unfold colParsesB
  simp only [hg, hp, Option.isSome]

theorem packU32_neg {v : Int} (h : ¬ (0 ≤ v ∧ v < 2 ^ 32)) :
    packU32 v = .error .rangeError := by
  unfold packU32
  rw [if_neg h]

theorem packU8_neg {v : Int} (h : ¬ (0 ≤ v ∧ v < 2 ^ 8)) :
    packU8 v = .error .rangeError := by
  unfold packU8
  rw [if_neg h]

theorem blocks_fmt {d : List String} (h : blocksParseOkB d = false) :
    blocks_record d = .error .formatError := by
  by_cases c0 : colParsesB 16 d 0 = true
  case neg =>
      obtain ⟨s0, hg0, hp0⟩ := colParsesB_false (Bool.eq_false_iff.mpr c0)
      unfold blocks_record
      simp only [pyIntAt_bad hg0 hp0, error_bind]
  case pos =>
  cases hg0 : d.get? 0 with
  | none =>
      exfalso
      have hl : d.length = 0 := by
        have := List.get?_eq_none.mp hg0
        omega
      have hall : ∀ j, d.get? j = none := fun j => get?_none_of_le (by omega)
      simp [blocksParseOkB, @colParsesB_of_none 16 _ _ (hall 0),
        @colParsesB_of_none 16 _ _ (hall 1), @colParsesB_of_none 10 _ _ (hall 2),
        @colParsesB_of_none 16 _ _ (hall 3), @colParsesB_of_none 16 _ _ (hall 4),
        @colParsesB_of_none 10 _ _ (hall 5)] at h
  | some s0 =>
  obtain ⟨v0, hp0⟩ := colParsesB_some hg0 c0
  by_cases c1 : colParsesB 16 d 1 = true
  case neg =>
      obtain ⟨s1, hg1, hq1⟩ := colParsesB_false (Bool.eq_false_iff.mpr c1)
      unfold blocks_record
      simp only [pyIntAt_okv hg0 hp0, pyIntAt_bad hg1 hq1, ok_bind, error_bind]
  case pos =>
  cases hg1 : d.get? 1 with
  | none =>
      exfalso
      have hl := List.get?_eq_none.mp hg1
      have hall : ∀ j, 1 ≤ j → d.get? j = none := fun j hj => get?_none_of_le (by omega)
      simp [blocksParseOkB, colParsesB_of_parse hg0 hp0,
        @colParsesB_of_none 16 _ _ (hall 1 (by omega)),
        @colParsesB_of_none 10 _ _ (hall 2 (by omega)),
        @colParsesB_of_none 16 _ _ (hall 3 (by omega)),
        @colParsesB_of_none 16 _ _ (hall 4 (by omega)),
        @colParsesB_of_none 10 _ _ (hall 5 (by omega))] at h
  | some s1 =>
  obtain ⟨v1, hp1⟩ := colParsesB_some hg1 c1
  by_cases c2 : colParsesB 10 d 2 = true
  case neg =>
      obtain ⟨s2, hg2, hq2⟩ := colParsesB_false (Bool.eq_false_iff.mpr c2)
      unfold blocks_record
      simp only [pyIntAt_okv hg0 hp0, pyIntAt_okv hg1 hp1, pyIntAt_bad hg2 hq2,
        ok_bind, error_bind]
  case pos =>
  cases hg2 : d.get? 2 with
  | none =>
      exfalso
      have hl := List.get?_eq_none.mp hg2
      have hall : ∀ j, 2 ≤ j → d.get? j = none := fun j hj => get?_none_of_le (by omega)
      simp [blocksParseOkB, colParsesB_of_parse hg0 hp0, colParsesB_of_parse hg1 hp1,
        @colParsesB_of_none 10 _ _ (hall 2 (by omega)),
        @colParsesB_of_none 16 _ _ (hall 3 (by omega)),
        @colParsesB_of_none 16 _ _ (hall 4 (by omega)),
        @colParsesB_of_none 10 _ _ (hall 5 (by omega))] at h
  | some s2 =>
  obtain ⟨v2, hp2⟩ := colParsesB_some hg2 c2
  by_cases c3 : colParsesB 16 d 3 = true
  case neg =>
      obtain ⟨s3, hg3, hq3⟩ := colParsesB_false (Bool.eq_false_iff.mpr c3)
      unfold blocks_record
      simp only [pyIntAt_okv hg0 hp0, pyIntAt_okv hg1 hp1, pyIntAt_okv hg2 hp2,
        pyIntAt_bad hg3 hq3, ok_bind, error_bind]
  case pos =>
  cases hg3 : d.get? 3 with
  | none =>
      exfalso
      have hl := List.get?_eq_none.mp hg3
      have hall : ∀ j, 3 ≤ j → d.get? j = none := fun j hj => get?_none_of_le (by omega)
      simp [blocksParseOkB, colParsesB_of_parse hg0 hp0, colParsesB_of_parse hg1 hp1,
        colParsesB_of_parse hg2 hp2,
        @colParsesB_of_none 16 _ _ (hall 3 (by omega)),
        @colParsesB_of_none 16 _ _ (hall 4 (by omega)),
        @colParsesB_of_none 10 _ _ (hall 5 (by omega))] at h
  | some s3 =>
  obtain ⟨v3, hp3⟩ := colParsesB_some hg3 c3
  by_cases c4 : colParsesB 16 d 4 = true
  case neg =>
      obtain ⟨s4, hg4, hq4⟩ := colParsesB_false (Bool.eq_false_iff.mpr c4)
      unfold blocks_record
      simp only [pyIntAt_okv hg0 hp0, pyIntAt_okv hg1 hp1, pyIntAt_okv hg2 hp2,
        pyIntAt_okv hg3 hp3, pyIntAt_bad hg4 hq4, ok_bind, error_bind]
  case pos =>
  cases hg4 : d.get? 4 with
  | none =>
      exfalso
      have hl := List.get?_eq_none.mp hg4
      have hall : ∀ j, 4 ≤ j → d.get? j = none := fun j hj => get?_none_of_le (by omega)
      simp [blocksParseOkB, colParsesB_of_parse hg0 hp0, colParsesB_of_parse hg1 hp1,
        colParsesB_of_parse hg2 hp2, colParsesB_of_parse hg3 hp3,
        @colParsesB_of_none 16 _ _ (hall 4 (by omega)),
        @colParsesB_of_none 10 _ _ (hall 5 (by omega))] at h
  | some s4 =>
  obtain ⟨v4, hp4⟩ := colParsesB_some hg4 c4
  by_cases c5 : colParsesB 10 d 5 = true
  case neg =>
      obtain ⟨s5, hg5, hq5⟩ := colParsesB_false (Bool.eq_false_iff.mpr c5)
      unfold blocks_record
      simp only [pyIntAt_okv hg0 hp0, pyIntAt_okv hg1 hp1, pyIntAt_okv hg2 hp2,
        pyIntAt_okv hg3 hp3, pyIntAt_okv hg4 hp4, pyIntAt_bad hg5 hq5,
        ok_bind, error_bind]
  case pos =>
      exfalso
      simp [blocksParseOkB, c0, c1, c2, c3, c4, c5] at h

theorem colInRangeB_false_val {base : Nat} {d : List String} {i : Nat} {s : String}
    {v bound : Int} (hg : d.get? i = some s) (hp : pyIntCore base s.data = some v)
    (h : colInRangeB base d i bound = false) : ¬ (0 ≤ v ∧ v < bound) := by
  unfold colInRangeB at h
  simp only [hg, hp] at h
  exact of_decide_eq_false h

theorem colInRangeB_of_val {base : Nat} {d : List String} {i : Nat} {s : String}
    {v bound : Int} (hg : d.get? i = some s) (hp : pyIntCore base s.data = some v)
    (hr : 0 ≤ v ∧ v < bound) : colInRangeB base d i bound = true := by
  unfold colInRangeB
  simp only [hg, hp]
  exact decide_eq_true hr

theorem getCol_ok_elim {d : List String} {i : Nat} {s : String}
    (h : getCol d i = .ok s) : d.get? i = some s := by
  unfold getCol at h
  cases hg : d.get? i with
  | none => rw [hg] at h; exact Except.noConfusion h
  | some t =>
      rw [hg] at h
      exact congrArg some (Except.ok.inj h)

theorem pyIntAt_ok_elim {base : Nat} {d : List String} {i : Nat} {v : Int}
    (h : pyIntAt base d i = .ok v) :
    ∃ s, d.get? i = some s ∧ pyIntCore base s.data = some v := by
  unfold pyIntAt at h
  obtain ⟨s, hs, h2⟩ := exceptBind_ok h
  refine ⟨s, getCol_ok_elim hs, ?_⟩
  cases hp : pyIntCore base s.data with
  | none => rw [hp] at h2; exact Except.noConfusion h2
  | some w =>
      rw [hp] at h2
      exact congrArg some (Except.ok.inj h2)

theorem pyFloatAt_ok_elim {d : List String} {i : Nat} {f : PyFloat}
    (h : pyFloatAt d i = .ok f) :
    ∃ s, d.get? i = some s ∧ pyFloatCore s.data = some f := by
  unfold pyFloatAt at h
  obtain ⟨s, hs, h2⟩ := exceptBind_ok h
  refine ⟨s, getCol_ok_elim hs, ?_⟩
  cases hp : pyFloatCore s.data with
  | none => rw [hp] at h2; exact Except.noConfusion h2
  | some g =>
      rw [hp] at h2
      exact congrArg some (Except.ok.inj h2)

theorem blocks_schema {d : List String} (hlen : d.length < 7)
    (hOk : blocksParseOkB d = true) : blocks_record d = .error .schemaError := by
  simp only [blocksParseOkB, Bool.and_eq_true] at hOk
  obtain ⟨⟨⟨⟨⟨hc0, hc1⟩, hc2⟩, hc3⟩, hc4⟩, hc5⟩ := hOk
  cases hg0 : d.get? 0 with
  | none => unfold blocks_record; simp only [pyIntAt_none hg0, error_bind]
  | some s0 =>
  obtain ⟨v0, hp0⟩ := colParsesB_some hg0 hc0
  cases hg1 : d.get? 1 with
  | none =>
      unfold blocks_record
      simp only [pyIntAt_okv hg0 hp0, pyIntAt_none hg1, ok_bind, error_bind]
  | some s1 =>
  obtain ⟨v1, hp1⟩ := colParsesB_some hg1 hc1
  cases hg2 : d.get? 2 with
  | none =>
      unfold blocks_record
      simp only [pyIntAt_okv hg0 hp0, pyIntAt_okv hg1 hp1, pyIntAt_none hg2,
        ok_bind, error_bind]
  | some s2 =>
  obtain ⟨v2, hp2⟩ := colParsesB_some hg2 hc2
  cases hg3 : d.get? 3 with
  | none =>
      unfold blocks_record
      simp only [pyIntAt_okv hg0 hp0, pyIntAt_okv hg1 hp1, pyIntAt_okv hg2 hp2,
        pyIntAt_none hg3, ok_bind, error_bind]
  | some s3 =>
  obtain ⟨v3, hp3⟩ := colParsesB_some hg3 hc3
  cases hg4 : d.get? 4 with
  | none =>
      unfold blocks_record
      simp only [pyIntAt_okv hg0 hp0, pyIntAt_okv hg1 hp1, pyIntAt_okv hg2 hp2,
        pyIntAt_okv hg3 hp3, pyIntAt_none hg4, ok_bind, error_bind]
  | some s4 =>
  obtain ⟨v4, hp4⟩ := colParsesB_some hg4 hc4
  cases hg5 : d.get? 5 with
  | none =>
      unfold blocks_record
      simp only [pyIntAt_okv hg0 hp0, pyIntAt_okv hg1 hp1, pyIntAt_okv hg2 hp2,
        pyIntAt_okv hg3 hp3, pyIntAt_okv hg4 hp4, pyIntAt_none hg5, ok_bind, error_bind]
  | some s5 =>
  obtain ⟨v5, hp5⟩ := colParsesB_some hg5 hc5
  have hg6 : d.get? 6 = none := get?_none_of_le (by omega)
  unfold blocks_record
  simp only [pyIntAt_okv hg0 hp0, pyIntAt_okv hg1 hp1, pyIntAt_okv hg2 hp2,
    pyIntAt_okv hg3 hp3, pyIntAt_okv hg4 hp4, pyIntAt_okv hg5 hp5,
    getCol_none hg6, ok_bind, error_bind]

theorem blocks_ok {d : List String} (hlen : 7 ≤ d.length)
    (hOk : blocksParseOkB d = true) (hR : blocksRangeOkB d = true) :
    ∃ b, blocks_record d = .ok b := by
  simp only [blocksParseOkB, Bool.and_eq_true] at hOk
  obtain ⟨⟨⟨⟨⟨hc0, hc1⟩, hc2⟩, hc3⟩, hc4⟩, hc5⟩ := hOk
  simp only [blocksRangeOkB, Bool.and_eq_true] at hR
  obtain ⟨⟨⟨⟨⟨hr0, hr1⟩, hr2⟩, hr3⟩, hr4⟩, hr5⟩ := hR
  obtain ⟨s0, hg0⟩ := get?_some_of_lt (d := d) (i := 0) (by omega)
  obtain ⟨s1, hg1⟩ := get?_some_of_lt (d := d) (i := 1) (by omega)
  obtain ⟨s2, hg2⟩ := get?_some_of_lt (d := d) (i := 2) (by omega)
  obtain ⟨s3, hg3⟩ := get?_some_of_lt (d := d) (i := 3) (by omega)
  obtain ⟨s4, hg4⟩ := get?_some_of_lt (d := d) (i := 4) (by omega)
  obtain ⟨s5, hg5⟩ := get?_some_of_lt (d := d) (i := 5) (by omega)
  obtain ⟨s6, hg6⟩ := get?_some_of_lt (d := d) (i := 6) (by omega)
  obtain ⟨v0, hp0⟩ := colParsesB_some hg0 hc0
  obtain ⟨v1, hp1⟩ := colParsesB_some hg1 hc1
  obtain ⟨v2, hp2⟩ := colParsesB_some hg2 hc2
  obtain ⟨v3, hp3⟩ := colParsesB_some hg3 hc3
  obtain ⟨v4, hp4⟩ := colParsesB_some hg4 hc4
  obtain ⟨v5, hp5⟩ := colParsesB_some hg5 hc5
  refine ⟨leBytes v0.toNat 4 ++ leBytes v1.toNat 4 ++ leBytes v2.toNat 4 ++
    leBytes v3.toNat 4 ++ leBytes v4.toNat 4 ++ leBytes v5.toNat 1 ++ packStr 2 s6, ?_⟩
  unfold blocks_record
  simp only [pyIntAt_okv hg0 hp0, pyIntAt_okv hg1 hp1, pyIntAt_okv hg2 hp2,
    pyIntAt_okv hg3 hp3, pyIntAt_okv hg4 hp4, pyIntAt_okv hg5 hp5,
    getCol_some hg6, ok_bind,
    packU32_pos (colInRangeB_val hg0 hp0 hr0), packU32_pos (colInRangeB_val hg1 hp1 hr1),
    packU32_pos (colInRangeB_val hg2 hp2 hr2), packU32_pos (colInRangeB_val hg3 hp3 hr3),
    packU32_pos (colInRangeB_val hg4 hp4 hr4), packU8_pos (colInRangeB_val hg5 hp5 hr5)]
  rfl

theorem blocks_range {d : List String} (hlen : 7 ≤ d.length)
    (hOk : blocksParseOkB d = true) (hR : blocksRangeOkB d = false) :
    blocks_record d = .error .rangeError := by
  simp only [blocksParseOkB, Bool.and_eq_true] at hOk
  obtain ⟨⟨⟨⟨⟨hc0, hc1⟩, hc2⟩, hc3⟩, hc4⟩, hc5⟩ := hOk
  obtain ⟨s0, hg0⟩ := get?_some_of_lt (d := d) (i := 0) (by omega)
  obtain ⟨s1, hg1⟩ := get?_some_of_lt (d := d) (i := 1) (by omega)
  obtain ⟨s2, hg2⟩ := get?_some_of_lt (d := d) (i := 2) (by omega)
  obtain ⟨s3, hg3⟩ := get?_some_of_lt (d := d) (i := 3) (by omega)
  obtain ⟨s4, hg4⟩ := get?_some_of_lt (d := d) (i := 4) (by omega)
  obtain ⟨s5, hg5⟩ := get?_some_of_lt (d := d) (i := 5) (by omega)
  obtain ⟨s6, hg6⟩ := get?_some_of_lt (d := d) (i := 6) (by omega)
  obtain ⟨v0, hp0⟩ := colParsesB_some hg0 hc0
  obtain ⟨v1, hp1⟩ := colParsesB_some hg1 hc1
  obtain ⟨v2, hp2⟩ := colParsesB_some hg2 hc2
  obtain ⟨v3, hp3⟩ := colParsesB_some hg3 hc3
  obtain ⟨v4, hp4⟩ := colParsesB_some hg4 hc4
  obtain ⟨v5, hp5⟩ := colParsesB_some hg5 hc5
  have hbase : blocks_record d =
      (packU32 v0 >>= fun b0 => packU32 v1 >>= fun b1 => packU32 v2 >>= fun b2 =>
       packU32 v3 >>= fun b3 => packU32 v4 >>= fun b4 => packU8 v5 >>= fun b5 =>
       pure (b0 ++ b1 ++ b2 ++ b3 ++ b4 ++ b5 ++ packStr 2 s6)) := by
    unfold blocks_record
    simp only [pyIntAt_okv hg0 hp0, pyIntAt_okv hg1 hp1, pyIntAt_okv hg2 hp2,
      pyIntAt_okv hg3 hp3, pyIntAt_okv hg4 hp4, pyIntAt_okv hg5 hp5,
      getCol_some hg6, ok_bind]
  rw [hbase]
  by_cases r0 : colInRangeB 16 d 0 (2 ^ 32) = true
  case neg =>
      rw [packU32_neg (colInRangeB_false_val hg0 hp0 (Bool.eq_false_iff.mpr r0)),
        error_bind]
  case pos =>
  rw [packU32_pos (colInRangeB_val hg0 hp0 r0), ok_bind]
  by_cases r1 : colInRangeB 16 d 1 (2 ^ 32) = true
  case neg =>
      rw [packU32_neg (colInRangeB_false_val hg1 hp1 (Bool.eq_false_iff.mpr r1)),
        error_bind]
  case pos =>
  rw [packU32_pos (colInRangeB_val hg1 hp1 r1), ok_bind]
  by_cases r2 : colInRangeB 10 d 2 (2 ^ 32) = true
  case neg =>
      rw [packU32_neg (colInRangeB_false_val hg2 hp2 (Bool.eq_false_iff.mpr r2)),
        error_bind]
  case pos =>
  rw [packU32_pos (colInRangeB_val hg2 hp2 r2), ok_bind]
  by_cases r3 : colInRangeB 16 d 3 (2 ^ 32) = true
  case neg =>
      rw [packU32_neg (colInRangeB_false_val hg3 hp3 (Bool.eq_false_iff.mpr r3)),
        error_bind]
  case pos =>
  rw [packU32_pos (colInRangeB_val hg3 hp3 r3), ok_bind]
  by_cases r4 : colInRangeB 16 d 4 (2 ^ 32) = true
  case neg =>
      rw [packU32_neg (colInRangeB_false_val hg4 hp4 (Bool.eq_false_iff.mpr r4)),
        error_bind]
  case pos =>
  rw [packU32_pos (colInRangeB_val hg4 hp4 r4), ok_bind]
  by_cases r5 : colInRangeB 10 d 5 (2 ^ 8) = true
  case neg =>
      rw [packU8_neg (colInRangeB_false_val hg5 hp5 (Bool.eq_false_iff.mpr r5)),
        error_bind]
  case pos =>
      exfalso
      simp only [blocksRangeOkB, r0, r1, r2, r3, r4, r5, Bool.true_and] at hR
      exact Bool.noConfusion hR

theorem blocks_classify (d : List String) :
    (blocks_record d = .error .schemaError ↔
        d.length < 7 ∧ blocksParseOkB d = true) ∧
    (blocks_record d = .error .formatError ↔ blocksParseOkB d = false) ∧
    ((∃ b, blocks_record d = .ok b) ↔
        7 ≤ d.length ∧ blocksParseOkB d = true ∧ blocksRangeOkB d = true) ∧
    (∀ b, blocks_record d = .ok b → b.length = blocks_rec_len) := by
  refine ⟨?_, ?_, ?_, fun b hb => blocks_record_length hb⟩
  · constructor
    · intro h
      by_cases hOk : blocksParseOkB d = true
      · refine ⟨?_, hOk⟩
        by_contra hlen
        by_cases hR : blocksRangeOkB d = true
        · obtain ⟨b, hb⟩ := blocks_ok (by omega) hOk hR
          rw [hb] at h
          exact Except.noConfusion h
        · rw [blocks_range (by omega) hOk (Bool.eq_false_iff.mpr hR)] at h
          simp at h
      · rw [blocks_fmt (Bool.eq_false_iff.mpr hOk)] at h
        simp at h
    · rintro ⟨hlen, hOk⟩
      exact blocks_schema hlen hOk
  · constructor
    · intro h
      by_cases hOk : blocksParseOkB d = true
      · exfalso
        by_cases hlen : d.length < 7
        · rw [blocks_schema hlen hOk] at h
          simp at h
        · by_cases hR : blocksRangeOkB d = true
          · obtain ⟨b, hb⟩ := blocks_ok (by omega) hOk hR
            rw [hb] at h
            exact Except.noConfusion h
          · rw [blocks_range (by omega) hOk (Bool.eq_false_iff.mpr hR)] at h
            simp at h
      · exact Bool.eq_false_iff.mpr hOk
    · intro hOk
      exact blocks_fmt hOk
  · constructor
    · rintro ⟨b, hb⟩
      obtain ⟨v0, v1, v2, v3, v4, v5, s6, h0, h1, h2, h3, h4, h5, h6,
        r0, r1, r2, r3, r4, r5, _⟩ := blocks_record_shape hb
      obtain ⟨s0, hg0, hp0⟩ := pyIntAt_ok_elim h0
      obtain ⟨s1, hg1, hp1⟩ := pyIntAt_ok_elim h1
      obtain ⟨s2, hg2, hp2⟩ := pyIntAt_ok_elim h2
      obtain ⟨s3, hg3, hp3⟩ := pyIntAt_ok_elim h3
      obtain ⟨s4, hg4, hp4⟩ := pyIntAt_ok_elim h4
      obtain ⟨s5, hg5, hp5⟩ := pyIntAt_ok_elim h5
      have hg6 := getCol_ok_elim h6
      refine ⟨by have := length_gt_of_get?_some hg6; omega, ?_, ?_⟩
      · simp only [blocksParseOkB, colParsesB_of_parse hg0 hp0, colParsesB_of_parse hg1 hp1,
          colParsesB_of_parse hg2 hp2, colParsesB_of_parse hg3 hp3,
          colParsesB_of_parse hg4 hp4, colParsesB_of_parse hg5 hp5, Bool.true_and]
      · simp only [blocksRangeOkB, colInRangeB_of_val hg0 hp0 r0,
          colInRangeB_of_val hg1 hp1 r1, colInRangeB_of_val hg2 hp2 r2,
          colInRangeB_of_val hg3 hp3 r3, colInRangeB_of_val hg4 hp4 r4,
          colInRangeB_of_val hg5 hp5 r5, Bool.true_and]
    · rintro ⟨hlen, hOk, hR⟩
      exact blocks_ok hlen hOk hR

theorem colFloatParsesB_false {d : List String} {i : Nat}
    (h : colFloatParsesB d i = false) :
    ∃ s, d.get? i = some s ∧ pyFloatCore s.data = none := by
  unfold colFloatParsesB at h
  cases hg : d.get? i with
  | none => simp only [hg] at h; exact Bool.noConfusion h
  | some s =>
      simp only [hg] at h
      cases hp : pyFloatCore s.data with
      | none => exact ⟨s, rfl, hp⟩
      | some f => simp only [hp, Option.isSome] at h; exact Bool.noConfusion h

theorem colFloatParsesB_some {d : List String} {i : Nat} {s : String}
    (hg : d.get? i = some s) (h : colFloatParsesB d i = true) :
    ∃ f, pyFloatCore s.data = some f := by
  unfold colFloatParsesB at h
  simp only [hg] at h
  cases hp : pyFloatCore s.data with
  | none => simp only [hp, Option.isSome] at h; exact Bool.noConfusion h
  | some f => exact ⟨f, rfl⟩

theorem colFloatParsesB_of_parse {d : List String} {i : Nat} {s : String} {f : PyFloat}
    (hg : d.get? i = some s) (hp : pyFloatCore s.data = some f) :
    colFloatParsesB d i = true := by
  unfold colFloatParsesB
  simp only [hg, hp, Option.isSome]

theorem colFloatPacksB_some {d : List String} {i : Nat} {s : String} {f : PyFloat}
    (hg : d.get? i = some s) (hp : pyFloatCore s.data = some f)
    (h : colFloatPacksB d i = true) : ∃ bits, f32bitsE f = .ok bits := by
  unfold colFloatPacksB at h
  simp only [hg, hp] at h
  cases hb : f32bitsE f with
  | error e => simp only [hb] at h; exact Bool.noConfusion h
  | ok bits => exact ⟨bits, rfl⟩

theorem colFloatPacksB_false_val {d : List String} {i : Nat} {s : String} {f : PyFloat}
    (hg : d.get? i = some s) (hp : pyFloatCore s.data = some f)
    (h : colFloatPacksB d i = false) : ∃ e, f32bitsE f = .error e := by
  unfold colFloatPacksB at h
  simp only [hg, hp] at h
  cases hb : f32bitsE f with
  | error e => exact ⟨e, rfl⟩
  | ok bits => simp only [hb] at h; exact Bool.noConfusion h

theorem colFloatPacksB_of_ok {d : List String} {i : Nat} {s : String} {f : PyFloat}
    {bits : Nat} (hg : d.get? i = some s) (hp : pyFloatCore s.data = some f)
    (hb : f32bitsE f = .ok bits) : colFloatPacksB d i = true := by
  unfold colFloatPacksB
  simp only [hg, hp, hb]

theorem f32bitsE_error {f : PyFloat} {e : PyErr} (h : f32bitsE f = .error e) :
    e = .rangeError := by
  cases f with
  | inf neg => exact Except.noConfusion h
  | nan neg => exact Except.noConfusion h
  | finite neg m e10 =>
      simp only [f32bitsE] at h
      cases h64 : decTo64 m e10 with
      | none => rw [h64] at h; exact Except.noConfusion h
      | some p64 =>
          obtain ⟨m64, g64⟩ := p64
          rw [h64] at h
          dsimp only at h
          cases h32 : dyTo32 m64 g64 with
          | none =>
              rw [h32] at h
              dsimp only at h
              exact (Except.error.inj h).symm
          | some p32 =>
              obtain ⟨m32, g32⟩ := p32
              rw [h32] at h
              dsimp only at h
              exact Except.noConfusion h

theorem packF32_okv {f : PyFloat} {bits : Nat} (h : f32bitsE f = .ok bits) :
    packF32 f = .ok (leBytes bits 4) := by
  unfold packF32
  rw [h, ok_bind]
  rfl

theorem packF32_err {f : PyFloat} {e : PyErr} (h : f32bitsE f = .error e) :
    packF32 f = .error e := by
  unfold packF32
  rw [h]
  rfl

theorem airport_schema_short {d : List String} (hlen : d.length < 7) :
    airport_record d = .error .schemaError := by
  cases hg2 : d.get? 2 with
  | none => unfold airport_record; simp only [getCol_none hg2, error_bind]
  | some s2 =>
  cases hg3 : d.get? 3 with
  | none =>
      unfold airport_record
      simp only [getCol_some hg2, getCol_none hg3, ok_bind, error_bind]
  | some s3 =>
  have hl3 := length_gt_of_get?_some hg3
  obtain ⟨s1, hg1⟩ := get?_some_of_lt (d := d) (i := 1) (by omega)
  cases hg4 : d.get? 4 with
  | none =>
      unfold airport_record
      simp only [getCol_some hg2, getCol_some hg3, getCol_some hg1, getCol_none hg4,
        ok_bind, error_bind]
  | some s4 =>
  cases hg5 : d.get? 5 with
  | none =>
      unfold airport_record
      simp only [getCol_some hg2, getCol_some hg3, getCol_some hg1, getCol_some hg4,
        getCol_none hg5, ok_bind, error_bind]
  | some s5 =>
  have hg6 : d.get? 6 = none := get?_none_of_le (by omega)
  unfold airport_record
  simp only [getCol_some hg2, getCol_some hg3, getCol_some hg1, getCol_some hg4,
    getCol_some hg5, pyFloatAt_none hg6, ok_bind, error_bind]

theorem airport_schema_seven {d : List String} (hlen : d.length = 7)
    (hp6 : colFloatParsesB d 6 = true) : airport_record d = .error .schemaError := by
  obtain ⟨s2, hg2⟩ := get?_some_of_lt (d := d) (i := 2) (by omega)
  obtain ⟨s3, hg3⟩ := get?_some_of_lt (d := d) (i := 3) (by omega)
  obtain ⟨s1, hg1⟩ := get?_some_of_lt (d := d) (i := 1) (by omega)
  obtain ⟨s4, hg4⟩ := get?_some_of_lt (d := d) (i := 4) (by omega)
  obtain ⟨s5, hg5⟩ := get?_some_of_lt (d := d) (i := 5) (by omega)
  obtain ⟨s6, hg6⟩ := get?_some_of_lt (d := d) (i := 6) (by omega)
  obtain ⟨f6, hf6⟩ := colFloatParsesB_some hg6 hp6
  have hg7 : d.get? 7 = none := get?_none_of_le (by omega)
  unfold airport_record
  simp only [getCol_some hg2, getCol_some hg3, getCol_some hg1, getCol_some hg4,
    getCol_some hg5, pyFloatAt_okv hg6 hf6, pyFloatAt_none hg7, ok_bind, error_bind]

theorem airport_fmt {d : List String}
    (h : (colFloatParsesB d 6 && colFloatParsesB d 7) = false) :
    airport_record d = .error .formatError := by
  by_cases c6 : colFloatParsesB d 6 = true
  case neg =>
      obtain ⟨s6, hg6, hb6⟩ := colFloatParsesB_false (Bool.eq_false_iff.mpr c6)
      have hl6 := length_gt_of_get?_some hg6
      obtain ⟨s2, hg2⟩ := get?_some_of_lt (d := d) (i := 2) (by omega)
      obtain ⟨s3, hg3⟩ := get?_some_of_lt (d := d) (i := 3) (by omega)
      obtain ⟨s1, hg1⟩ := get?_some_of_lt (d := d) (i := 1) (by omega)
      obtain ⟨s4, hg4⟩ := get?_some_of_lt (d := d) (i := 4) (by omega)
      obtain ⟨s5, hg5⟩ := get?_some_of_lt (d := d) (i := 5) (by omega)
      unfold airport_record
      simp only [getCol_some hg2, getCol_some hg3, getCol_some hg1, getCol_some hg4,
        getCol_some hg5, pyFloatAt_bad hg6 hb6, ok_bind, error_bind]
  case pos =>
      rw [c6, Bool.true_and] at h
      obtain ⟨s7, hg7, hb7⟩ := colFloatParsesB_false h
      have hl7 := length_gt_of_get?_some hg7
      obtain ⟨s2, hg2⟩ := get?_some_of_lt (d := d) (i := 2) (by omega)
      obtain ⟨s3, hg3⟩ := get?_some_of_lt (d := d) (i := 3) (by omega)
      obtain ⟨s1, hg1⟩ := get?_some_of_lt (d := d) (i := 1) (by omega)
      obtain ⟨s4, hg4⟩ := get?_some_of_lt (d := d) (i := 4) (by omega)
      obtain ⟨s5, hg5⟩ := get?_some_of_lt (d := d) (i := 5) (by omega)
      obtain ⟨s6, hg6⟩ := get?_some_of_lt (d := d) (i := 6) (by omega)
      obtain ⟨f6, hf6⟩ := colFloatParsesB_some hg6 c6
      unfold airport_record
      simp only [getCol_some hg2, getCol_some hg3, getCol_some hg1, getCol_some hg4,
        getCol_some hg5, pyFloatAt_okv hg6 hf6, pyFloatAt_bad hg7 hb7,
        ok_bind, error_bind]

theorem airport_ok {d : List String} (hlen : 8 ≤ d.length)
    (hp6 : colFloatParsesB d 6 = true) (hp7 : colFloatParsesB d 7 = true)
    (hk6 : colFloatPacksB d 6 = true) (hk7 : colFloatPacksB d 7 = true) :
    ∃ b, airport_record d = .ok b := by
  obtain ⟨s2, hg2⟩ := get?_some_of_lt (d := d) (i := 2) (by omega)
  obtain ⟨s3, hg3⟩ := get?_some_of_lt (d := d) (i := 3) (by omega)
  obtain ⟨s1, hg1⟩ := get?_some_of_lt (d := d) (i := 1) (by omega)
  obtain ⟨s4, hg4⟩ := get?_some_of_lt (d := d) (i := 4) (by omega)
  obtain ⟨s5, hg5⟩ := get?_some_of_lt (d := d) (i := 5) (by omega)
  obtain ⟨s6, hg6⟩ := get?_some_of_lt (d := d) (i := 6) (by omega)
  obtain ⟨s7, hg7⟩ := get?_some_of_lt (d := d) (i := 7) (by omega)
  obtain ⟨f6, hf6⟩ := colFloatParsesB_some hg6 hp6
  obtain ⟨f7, hf7⟩ := colFloatParsesB_some hg7 hp7
  obtain ⟨bits6, hb6⟩ := colFloatPacksB_some hg6 hf6 hk6
  obtain ⟨bits7, hb7⟩ := colFloatPacksB_some hg7 hf7 hk7
  refine ⟨packStr 4 s2 ++ packStr 3 s3 ++ packStr 40 s1 ++ packStr 20 s4 ++
    packStr 2 s5 ++ leBytes bits6 4 ++ leBytes bits7 4, ?_⟩
  unfold airport_record
  simp only [getCol_some hg2, getCol_some hg3, getCol_some hg1, getCol_some hg4,
    getCol_some hg5, pyFloatAt_okv hg6 hf6, pyFloatAt_okv hg7 hf7,
    packF32_okv hb6, packF32_okv hb7, ok_bind]
  rfl

theorem airport_range {d : List String} (hlen : 8 ≤ d.length)
    (hp6 : colFloatParsesB d 6 = true) (hp7 : colFloatParsesB d 7 = true)
    (hk : (colFloatPacksB d 6 && colFloatPacksB d 7) = false) :
    airport_record d = .error .rangeError := by
  obtain ⟨s2, hg2⟩ := get?_some_of_lt (d := d) (i := 2) (by omega)
  obtain ⟨s3, hg3⟩ := get?_some_of_lt (d := d) (i := 3) (by omega)
  obtain ⟨s1, hg1⟩ := get?_some_of_lt (d := d) (i := 1) (by omega)
  obtain ⟨s4, hg4⟩ := get?_some_of_lt (d := d) (i := 4) (by omega)
  obtain ⟨s5, hg5⟩ := get?_some_of_lt (d := d) (i := 5) (by omega)
  obtain ⟨s6, hg6⟩ := get?_some_of_lt (d := d) (i := 6) (by omega)
  obtain ⟨s7, hg7⟩ := get?_some_of_lt (d := d) (i := 7) (by omega)
  obtain ⟨f6, hf6⟩ := colFloatParsesB_some hg6 hp6
  obtain ⟨f7, hf7⟩ := colFloatParsesB_some hg7 hp7
  by_cases k6 : colFloatPacksB d 6 = true
  case neg =>
      obtain ⟨e, he⟩ := colFloatPacksB_false_val hg6 hf6 (Bool.eq_false_iff.mpr k6)
      have he' : e = .rangeError := f32bitsE_error he
      subst he'
      unfold airport_record
      simp only [getCol_some hg2, getCol_some hg3, getCol_some hg1, getCol_some hg4,
        getCol_some hg5, pyFloatAt_okv hg6 hf6, pyFloatAt_okv hg7 hf7,
        packF32_err he, ok_bind, error_bind]
  case pos =>
      rw [k6, Bool.true_and] at hk
      obtain ⟨bits6, hb6⟩ := colFloatPacksB_some hg6 hf6 k6
      obtain ⟨e, he⟩ := colFloatPacksB_false_val hg7 hf7 hk
      have he' : e = .rangeError := f32bitsE_error he
      subst he'
      unfold airport_record
      simp only [getCol_some hg2, getCol_some hg3, getCol_some hg1, getCol_some hg4,
        getCol_some hg5, pyFloatAt_okv hg6 hf6, pyFloatAt_okv hg7 hf7,
        packF32_okv hb6, packF32_err he, ok_bind, error_bind]

theorem airport_classify (d : List String) :
    (airport_record d = .error .schemaError ↔
        d.length < 7 ∨ (d.length = 7 ∧ colFloatParsesB d 6 = true)) ∧
    (airport_record d = .error .formatError ↔
        (colFloatParsesB d 6 && colFloatParsesB d 7) = false) ∧
    ((∃ b, airport_record d = .ok b) ↔
        8 ≤ d.length ∧ colFloatParsesB d 6 = true ∧ colFloatParsesB d 7 = true ∧
        colFloatPacksB d 6 = true ∧ colFloatPacksB d 7 = true) ∧
    (∀ b, airport_record d = .ok b → b.length = airport_rec_len) := by
  refine ⟨?_, ?_, ?_, fun b hb => airport_record_length hb⟩
  · constructor
    · intro h
      by_cases hlen7 : d.length < 7
      · exact Or.inl hlen7
      · right
        by_cases c6 : colFloatParsesB d 6 = true
        · by_cases c7 : colFloatParsesB d 7 = true
          · by_cases hlen8 : 8 ≤ d.length
            · by_cases k6 : colFloatPacksB d 6 = true
              · by_cases k7 : colFloatPacksB d 7 = true
                · obtain ⟨b, hb⟩ := airport_ok hlen8 c6 c7 k6 k7
                  rw [hb] at h
                  exact Except.noConfusion h
                · rw [airport_range hlen8 c6 c7 (by simp [k7])] at h
                  simp at h
              · rw [airport_range hlen8 c6 c7 (by simp [k6])] at h
                simp at h
            · exact ⟨by omega, c6⟩
          · rw [airport_fmt (by simp [c7])] at h
            simp at h
        · rw [airport_fmt (by simp [c6])] at h
          simp at h
    · rintro (hlen | ⟨hlen, hp6⟩)
      · exact airport_schema_short hlen
      · exact airport_schema_seven hlen hp6
  · constructor
    · intro h
      by_cases c6 : colFloatParsesB d 6 = true
      · by_cases c7 : colFloatParsesB d 7 = true
        · exfalso
          by_cases hlen7 : d.length < 7
          · rw [airport_schema_short hlen7] at h
            simp at h
          · by_cases hlen8 : 8 ≤ d.length
            · by_cases k6 : colFloatPacksB d 6 = true
              · by_cases k7 : colFloatPacksB d 7 = true
                · obtain ⟨b, hb⟩ := airport_ok hlen8 c6 c7 k6 k7
                  rw [hb] at h
                  exact Except.noConfusion h
                · rw [airport_range hlen8 c6 c7 (by simp [k7])] at h
                  simp at h
              · rw [airport_range hlen8 c6 c7 (by simp [k6])] at h
                simp at h
            · rw [airport_schema_seven (by omega) c6] at h
              simp at h
        · simp [c6, c7]
      · simp [c6]
    · intro hk
      exact airport_fmt hk
  · constructor
    · rintro ⟨b, hb⟩
      obtain ⟨s2, s3, s1, s4, s5, f6, f7, bits6, bits7,
        h2, h3, h1, h4, h5, h6, h7, hb6, hb7, _⟩ := airport_record_shape hb
      obtain ⟨s6, hg6, hf6⟩ := pyFloatAt_ok_elim h6
      obtain ⟨s7, hg7, hf7⟩ := pyFloatAt_ok_elim h7
      refine ⟨by have := length_gt_of_get?_some hg7; omega,
        colFloatParsesB_of_parse hg6 hf6, colFloatParsesB_of_parse hg7 hf7,
        colFloatPacksB_of_ok hg6 hf6 hb6, colFloatPacksB_of_ok hg7 hf7 hb7⟩
    · rintro ⟨hlen, c6, c7, k6, k7⟩
      exact airport_ok hlen c6 c7 k6 k7

theorem c8_counterexample :
    (["zz"] : List String).length < 7 ∧
    blocks_record ["zz"] = .error .formatError ∧
    blocks_record ["zz"] ≠ .error .schemaError := by
  refine ⟨by decide, rfl, fun h => ?_⟩
  exact PyErr.noConfusion (Except.error.inj h)

/-- Claim C8 (amended): errors are detected in field-evaluation order. For
the string-only layouts (aircraft, routes) encode fails with `SchemaError`
exactly when the row is shorter than required, and succeeds with a buffer
of the constant record length otherwise. For the layouts with numeric
columns (allocation blocks, airports) a present numeric column that fails
to parse in its base (hex for start/finish/bitmask/sign_bitmask, decimal
for count/is_military, float for latitude/longitude) yields `FormatError`
even when the row is also short; `SchemaError` is raised only when a
required column index is missing and every numeric column evaluated before
it parses; a parsed value out of range for its pack format is a separate
`struct.error` / `OverflowError` failure; and on success the buffer always
has the domain's constant record length. -/
theorem c8_encode_errors_amended :
    (∀ d : List String,
      (aircraft_record d = .error .schemaError ↔ d.length < 6) ∧
      ((∃ b, aircraft_record d = .ok b ∧ b.length = aircraft_rec_len) ↔ 6 ≤ d.length)) ∧
    (∀ d : List String,
      (routes_record d = .error .schemaError ↔ d.length < 5) ∧
      ((∃ b, routes_record d = .ok b ∧ b.length = routes_rec_len) ↔ 5 ≤ d.length)) ∧
    (∀ d : List String,
      (airport_record d = .error .schemaError ↔
          d.length < 7 ∨ (d.length = 7 ∧ colFloatParsesB d 6 = true)) ∧
      (airport_record d = .error .formatError ↔
          (colFloatParsesB d 6 && colFloatParsesB d 7) = false) ∧
      ((∃ b, airport_record d = .ok b) ↔
          8 ≤ d.length ∧ colFloatParsesB d 6 = true ∧ colFloatParsesB d 7 = true ∧
          colFloatPacksB d 6 = true ∧ colFloatPacksB d 7 = true) ∧
      (∀ b, airport_record d = .ok b → b.length = airport_rec_len)) ∧
    (∀ d : List String,
      (blocks_record d = .error .schemaError ↔
          d.length < 7 ∧ blocksParseOkB d = true) ∧
      (blocks_record d = .error .formatError ↔ blocksParseOkB d = false) ∧
      ((∃ b, blocks_record d = .ok b) ↔
          7 ≤ d.length ∧ blocksParseOkB d = true ∧ blocksRangeOkB d = true) ∧
      (∀ b, blocks_record d = .ok b → b.length = blocks_rec_len)) :=
  ⟨aircraft_classify, routes_classify, airport_classify, blocks_classify⟩

theorem c8_witness :
    blocks_record ["400000", "43FFFF", "1", "400000", "FFC000", "0", "US"] =
      .ok (leBytes 4194304 4 ++ leBytes 4456447 4 ++ leBytes 1 4 ++ leBytes 4194304 4 ++
           leBytes 16760832 4 ++ leBytes 0 1 ++ packStr 2 "US") ∧
    (leBytes 4194304 4 ++ leBytes 4456447 4 ++ leBytes 1 4 ++ leBytes 4194304 4 ++
     leBytes 16760832 4 ++ leBytes 0 1 ++ packStr 2 "US").length = blocks_rec_len :=
  ⟨rfl,
   (c8_encode_errors_amended.2.2.2 ["400000", "43FFFF", "1", "400000", "FFC000", "0", "US"]).2.2.2
     (leBytes 4194304 4 ++ leBytes 4456447 4 ++ leBytes 1 4 ++ leBytes 4194304 4 ++
      leBytes 16760832 4 ++ leBytes 0 1 ++ packStr 2 "US") rfl⟩

/-! ## Fragment Merger determinism lemmas (Claim C9) -/

theorem entName_sortTree (e : FSEntry) : (sortTree e).entName = e.entName := by
  cases e with
  | file n h rs => rfl
  | dir n es => rfl

theorem walkPairs_eq_map :
    ∀ es : List FSEntry, walkPairs es = es.map (fun e => (e.entName, walkRel e)) := by
  intro es
  induction es with
  | nil => rfl
  | cons e es ih => simp [walkPairs, ih]

theorem sortTreeList_eq_map :
    ∀ es : List FSEntry, sortTreeList es = es.map sortTree := by
  intro es
  induction es with
  | nil => rfl
  | cons e es ih => simp [sortTreeList, ih]

theorem wfList_mem {es : List FSEntry} (h : wfList es = true) :
    ∀ e ∈ es, wfFS e = true := by
  induction es with
  | nil => intro e he; cases he
  | cons x xs ih =>
      intro e he
      unfold wfList at h
      rw [Bool.and_eq_true] at h
      rcases List.mem_cons.mp he with rfl | he'
      · exact h.1
      · exact ih h.2 e he'

theorem wfFS_dir {n : String} {es : List FSEntry} (h : wfFS (.dir n es) = true) :
    (es.map FSEntry.entName).Nodup ∧ wfList es = true := by
  unfold wfFS at h
  rw [Bool.and_eq_true] at h
  exact ⟨of_decide_eq_true h.1, h.2⟩

theorem strLt_irrefl : ∀ as : List Char, charsLt as as = false := by
  intro as
  induction as with
  | nil => rfl
  | cons a as ih => simp [charsLt, ih]

theorem charsLt_of_le_ne :
    ∀ as bs : List Char, charsLe as bs = true → as ≠ bs → charsLt as bs = true := by
  intro as
  induction as with
  | nil =>
      intro bs _ hne
      cases bs with
      | nil => exact absurd rfl hne
      | cons b bs => rfl
  | cons a as ih =>
      intro bs hle hne
      cases bs with
      | nil => simp [charsLe] at hle
      | cons b bs =>
          simp only [charsLe] at hle
          simp only [charsLt]
          rcases Nat.lt_trichotomy a.toNat b.toNat with h | h | h
          · simp [h]
          · have hab : a = b := charToNat_inj h
            subst hab
            simp only [Nat.lt_irrefl, if_false]
            have hle' : charsLe as bs = true := by simpa [Nat.lt_irrefl] using hle
            have hne' : as ≠ bs := fun hh => hne (by rw [hh])
            simpa [Nat.lt_irrefl] using ih bs hle' hne'
          · simp [show ¬ a.toNat < b.toNat by omega, h] at hle

theorem strLt_of_le_ne {a b : String} (hle : strLe a b = true) (hne : a ≠ b) :
    strLt a b = true := by
  refine charsLt_of_le_ne a.data b.data hle ?_
  intro h
  apply hne
  cases a
  cases b
  exact congrArg String.mk h

theorem insertPair_perm (x : String × List FileInfo) :
    ∀ l, List.Perm (insertPair x l) (x :: l) := by
  intro l
  induction l with
  | nil => exact List.Perm.refl _
  | cons y ys ih =>
      by_cases hc : strLe x.1 y.1 = true
      · rw [insertPair, if_pos hc]
      · rw [insertPair, if_neg hc]
        exact (ih.cons y).trans (List.Perm.swap x y ys)

theorem isortPairs_perm : ∀ l, List.Perm (isortPairs l) l := by
  intro l
  induction l with
  | nil => exact List.Perm.refl _
  | cons x xs ih => exact (insertPair_perm x (isortPairs xs)).trans (ih.cons x)

theorem pairwise_insertPair (x : String × List FileInfo) (l : List (String × List FileInfo))
    (h : l.Pairwise (fun a b => strLe a.1 b.1 = true)) :
    (insertPair x l).Pairwise (fun a b => strLe a.1 b.1 = true) := by
  induction l with
  | nil => simp [insertPair]
  | cons y ys ih =>
      by_cases hc : strLe x.1 y.1 = true
      · rw [insertPair, if_pos hc]
        refine List.Pairwise.cons ?_ h
        intro z hz
        rcases List.mem_cons.mp hz with rfl | hz'
        · exact hc
        · exact strLe_trans hc ((List.pairwise_cons.mp h).1 z hz')
      · rw [insertPair, if_neg hc]
        have hyx : strLe y.1 x.1 = true := by
          rcases strLe_total x.1 y.1 with h1 | h1
          · exact absurd h1 hc
          · exact h1
        rcases List.pairwise_cons.mp h with ⟨hy, hys⟩
        refine List.Pairwise.cons ?_ (ih hys)
        intro z hz
        have hz2 : z ∈ x :: ys := (insertPair_perm x ys).mem_iff.mp hz
        rcases List.mem_cons.mp hz2 with rfl | hz'
        · exact hyx
        · exact hy z hz'

theorem isortPairs_sorted (l : List (String × List FileInfo)) :
    (isortPairs l).Pairwise (fun a b => strLe a.1 b.1 = true) := by
  induction l with
  | nil => simp [isortPairs]
  | cons x xs ih => exact pairwise_insertPair x (isortPairs xs) ih

theorem insertPair_of_le (x : String × List FileInfo) (l : List (String × List FileInfo))
    (h : ∀ y ∈ l, strLe x.1 y.1 = true) : insertPair x l = x :: l := by
  cases l with
  | nil => rfl
  | cons y ys => rw [insertPair, if_pos (h y (List.mem_cons_self y ys))]

theorem isortPairs_of_sorted :
    ∀ l : List (String × List FileInfo),
      l.Pairwise (fun a b => strLe a.1 b.1 = true) → isortPairs l = l := by
  intro l
  induction l with
  | nil => intro _; rfl
  | cons x xs ih =>
      intro h
      rcases List.pairwise_cons.mp h with ⟨hx, hxs⟩
      rw [isortPairs, ih hxs]
      exact insertPair_of_le x xs hx

theorem isortPairs_idem (l : List (String × List FileInfo)) :
    isortPairs (isortPairs l) = isortPairs l :=
  isortPairs_of_sorted _ (isortPairs_sorted l)

theorem pairs_insertEnt (x : FSEntry) :
    ∀ l : List FSEntry,
      (insertEnt x l).map (fun e => (e.entName, walkRel e)) =
        insertPair (x.entName, walkRel x) (l.map (fun e => (e.entName, walkRel e))) := by
  intro l
  induction l with
  | nil => rfl
  | cons y ys ih =>
      by_cases hc : strLe x.entName y.entName = true
      · simp [insertEnt, insertPair, hc]
      · simp [insertEnt, insertPair, hc, ih]

theorem pairs_isortEnt :
    ∀ l : List FSEntry,
      (isortEnt l).map (fun e => (e.entName, walkRel e)) =
        isortPairs (l.map (fun e => (e.entName, walkRel e))) := by
  intro l
  induction l with
  | nil => rfl
  | cons x xs ih =>
      simp only [isortEnt, List.map_cons, isortPairs]
      rw [pairs_insertEnt, ih]

theorem walkRel_sortTree : ∀ t : FSEntry, walkRel (sortTree t) = walkRel t := by
  have H : ∀ (k : Nat) (t : FSEntry), sizeOf t ≤ k → walkRel (sortTree t) = walkRel t := by
    intro k
    induction k with
    | zero =>
        intro t ht
        exfalso
        cases t <;> simp_arith at ht
    | succ k ih =>
        intro t ht
        cases t with
        | file nm h rs => rfl
        | dir nm es =>
            have hes : ∀ e ∈ es, walkRel (sortTree e) = walkRel e := by
              intro e he
              apply ih
              have h1 : sizeOf e < sizeOf es := List.sizeOf_lt_of_mem he
              have h2 : sizeOf (FSEntry.dir nm es) = 1 + sizeOf nm + sizeOf es := by
                simp
              omega
            show walkRel (sortTree (.dir nm es)) = walkRel (.dir nm es)
            simp only [sortTree, walkRel]
            congr 2
            rw [walkPairs_eq_map, walkPairs_eq_map, sortTreeList_eq_map]
            rw [pairs_isortEnt, isortPairs_idem]
            congr 1
            rw [List.map_map]
            apply List.map_congr_left
            intro e he
            simp only [Function.comp]
            rw [entName_sortTree, hes e he]
  intro t
  exact H (sizeOf t) t (le_refl _)

theorem mergeOutput_sortTree_inv {t₁ t₂ : FSEntry} (h : sortTree t₁ = sortTree t₂) :
    mergeOutput t₁ = mergeOutput t₂ := by
  have hw : walkRel t₁ = walkRel t₂ := by
    rw [← walkRel_sortTree t₁, h, walkRel_sortTree t₂]
  unfold mergeOutput
  rw [hw]

theorem drop20_shape (ts Z : List Nat) (h : ts.length = 8) :
    (packStr 12 bin_marker ++ (ts ++ Z)).drop 20 = Z := by
  rw [← List.append_assoc]
  have hl : (packStr 12 bin_marker ++ ts).length = 20 := by
    simp [packStr_length, h]
  rw [← hl, List.drop_left]

theorem walkRel_head : ∀ (e : FSEntry), ∀ fi ∈ walkRel e, ∃ rest, fi.path = e.entName :: rest := by
  intro e fi hfi
  cases e with
  | file n h rs =>
      simp only [walkRel] at hfi
      split at hfi
      · simp at hfi
        subst hfi
        exact ⟨[], rfl⟩
      · cases hfi
  | dir n es =>
      simp only [walkRel] at hfi
      rw [List.mem_flatten] at hfi
      obtain ⟨l, hl, hfl⟩ := hfi
      rw [List.mem_map] at hl
      obtain ⟨p, hp, rfl⟩ := hl
      rw [List.mem_map] at hfl
      obtain ⟨g, hg, rfl⟩ := hfl
      exact ⟨g.path, rfl⟩

theorem mem_isortPairs_walk {es : List FSEntry} {p : String × List FileInfo}
    (hp : p ∈ isortPairs (walkPairs es)) :
    ∃ e ∈ es, p = (e.entName, walkRel e) := by
  have hm := (isortPairs_perm (walkPairs es)).mem_iff.mp hp
  rw [walkPairs_eq_map, List.mem_map] at hm
  obtain ⟨e, he, hpe⟩ := hm
  exact ⟨e, he, hpe.symm⟩

theorem pathLtB_cons_same (n : String) (a b : List String) :
    pathLtB (n :: a) (n :: b) = pathLtB a b := by
  simp [pathLtB, strLt, strLt_irrefl]

theorem walkRel_pairwise : ∀ t : FSEntry, wfFS t = true →
    (walkRel t).Pairwise (fun a b => pathLtB a.path b.path = true) := by
  have H : ∀ (k : Nat) (t : FSEntry), sizeOf t ≤ k → wfFS t = true →
      (walkRel t).Pairwise (fun a b => pathLtB a.path b.path = true) := by
    intro k
    induction k with
    | zero =>
        intro t ht
        exfalso
        cases t <;> simp_arith at ht
    | succ k ih =>
        intro t ht hwf
        cases t with
        | file n h rs =>
            simp only [walkRel]
            split
            · exact List.pairwise_singleton _ _
            · exact List.Pairwise.nil
        | dir n es =>
            obtain ⟨hnd, hwl⟩ := wfFS_dir hwf
            have hsz : ∀ e ∈ es, sizeOf e ≤ k := by
              intro e he
              have h1 : sizeOf e < sizeOf es := List.sizeOf_lt_of_mem he
              have h2 : sizeOf (FSEntry.dir n es) = 1 + sizeOf n + sizeOf es := by
                simp
              omega
            simp only [walkRel]
            rw [List.pairwise_flatten]
            constructor
            · intro l hl
              rw [List.mem_map] at hl
              obtain ⟨p, hp, rfl⟩ := hl
              obtain ⟨e, he, rfl⟩ := mem_isortPairs_walk hp
              have hrec := ih e (hsz e he) (wfList_mem hwl e he)
              rw [List.pairwise_map]
              refine hrec.imp ?_
              intro a b hab
              show pathLtB (n :: a.path) (n :: b.path) = true
              rw [pathLtB_cons_same]
              exact hab
            · rw [List.pairwise_map]
              have hle := isortPairs_sorted (walkPairs es)
              have hnd2 : ((isortPairs (walkPairs es)).map Prod.fst).Nodup := by
                have hperm := (isortPairs_perm (walkPairs es)).map (Prod.fst)
                rw [hperm.nodup_iff, walkPairs_eq_map, List.map_map]
                have hc : (Prod.fst ∘ fun e : FSEntry => (e.entName, walkRel e)) =
                    FSEntry.entName := rfl
                rw [hc]
                exact hnd
              have hne : (isortPairs (walkPairs es)).Pairwise (fun p q => p.1 ≠ q.1) :=
                List.pairwise_map.mp hnd2
              refine (hle.and hne).imp_of_mem ?_
              intro p q hpmem hqmem hpq x hx y hy
              obtain ⟨ep, hep, rfl⟩ := mem_isortPairs_walk hpmem
              obtain ⟨eq', heq, rfl⟩ := mem_isortPairs_walk hqmem
              rw [List.mem_map] at hx hy
              obtain ⟨fx, hfx, rfl⟩ := hx
              obtain ⟨fy, hfy, rfl⟩ := hy
              obtain ⟨rx, hrx⟩ := walkRel_head ep fx hfx
              obtain ⟨ry, hry⟩ := walkRel_head eq' fy hfy
              show pathLtB (n :: fx.path) (n :: fy.path) = true
              rw [pathLtB_cons_same, hrx, hry]
              have hlt : strLt ep.entName eq'.entName = true :=
                strLt_of_le_ne hpq.1 hpq.2
              simp [pathLtB, hlt]
  intro t
  exact H (sizeOf t) t (le_refl _)

theorem mergeOutput_head {t : FSEntry} {f₀ : FileInfo} {rest : List FileInfo}
    (hw : walkRel t = f₀ :: rest) :
    (mergeOutput t).head? = some f₀.header := by
  unfold mergeOutput
  rw [hw]
  rfl

theorem walkRel_head_min {t : FSEntry} (hwf : wfFS t = true) {f₀ : FileInfo}
    {rest : List FileInfo} (hw : walkRel t = f₀ :: rest) :
    ∀ fi ∈ walkRel t, f₀ = fi ∨ pathLtB f₀.path fi.path = true := by
  intro fi hfi
  have hp := walkRel_pairwise t hwf
  rw [hw] at hp hfi
  rcases List.mem_cons.mp hfi with h | h
  · left
    exact h.symm
  · right
    exact List.rel_of_pairwise_cons hp h

theorem createBin_timestamp_only {recFunc : List String → Except PyErr (List Nat)}
    {recLen : Nat} {rows : List (List String)} {now₁ now₂ : Int} {d₁ d₂ : List Nat}
    (h₁ : createBinDisk recFunc recLen rows now₁ = (.ok (), d₁))
    (h₂ : createBinDisk recFunc recLen rows now₂ = (.ok (), d₂)) :
    d₁.length = d₂.length ∧ d₁.take 12 = d₂.take 12 ∧ d₁.drop 20 = d₂.drop 20 := by
  cases rows with
  | nil =>
      simp only [createBinDisk] at h₁
      injection h₁ with e _
      exact Except.noConfusion e
  | cons hdr dataRows =>
      simp only [createBinDisk] at h₁ h₂
      cases hloop : encodeLoop recFunc dataRows with
      | mk r1 w =>
          rw [hloop] at h₁ h₂
          cases r1 with
          | some e =>
              injection h₁ with e1 _
              exact Except.noConfusion e1
          | none =>
              cases hph₁ : packHeader now₁ dataRows.length recLen with
              | error e =>
                  rw [hph₁] at h₁
                  injection h₁ with e1 _
                  exact Except.noConfusion e1
              | ok hdr₁ =>
                  cases hph₂ : packHeader now₂ dataRows.length recLen with
                  | error e =>
                      rw [hph₂] at h₂
                      injection h₂ with e2 _
                      exact Except.noConfusion e2
                  | ok hdr₂ =>
                      rw [hph₁] at h₁
                      rw [hph₂] at h₂
                      injection h₁ with _ e1
                      injection h₂ with _ e2
                      subst e1
                      subst e2
                      obtain ⟨_, _, hs₁⟩ := packHeader_shape hph₁
                      obtain ⟨_, _, hs₂⟩ := packHeader_shape hph₂
                      subst hs₁
                      subst hs₂
                      refine ⟨?_, ?_, ?_⟩
                      · simp [List.length_append, packStr_length, leBytes_length]
                      · simp only [List.append_assoc]
                        simp [List.take_append_eq_append_take, packStr_length,
                          leBytes_length]
                      · simp only [List.append_assoc]
                        rw [drop20_shape _ _ (leBytes_length _ _),
                          drop20_shape _ _ (leBytes_length _ _)]

/-- Claim C9: merging is deterministic. (1) The merged dataset is a function
of the fragment set alone: any two trees with the same normal form (same
files and contents, directory enumeration order forgotten) produce the same
merged line list. (2) Two successful binary-table builds over the same rows
are byte-identical except for the 8-byte created-timestamp field at header
bytes 12..19: equal length, equal first 12 bytes, equal bytes from offset 20
on. (3) On a well-formed tree the kept header is that of the first fragment
in traversal order, and that fragment's path is lexicographically least
among all discovered fragments (per-directory lexicographic, recursive). -/
theorem c9_merge_determinism :
    (∀ t₁ t₂ : FSEntry, sortTree t₁ = sortTree t₂ → mergeOutput t₁ = mergeOutput t₂) ∧
    (∀ (recFunc : List String → Except PyErr (List Nat)) (recLen : Nat)
        (rows : List (List String)) (now₁ now₂ : Int) (d₁ d₂ : List Nat),
      createBinDisk recFunc recLen rows now₁ = (.ok (), d₁) →
      createBinDisk recFunc recLen rows now₂ = (.ok (), d₂) →
      d₁.length = d₂.length ∧ d₁.take 12 = d₂.take 12 ∧ d₁.drop 20 = d₂.drop 20) ∧
    (∀ (t : FSEntry) (f₀ : FileInfo) (rest : List FileInfo),
      wfFS t = true → walkRel t = f₀ :: rest →
      (mergeOutput t).head? = some f₀.header ∧
      ∀ fi ∈ walkRel t, f₀ = fi ∨ pathLtB f₀.path fi.path = true) := by
  refine ⟨fun t₁ t₂ h => mergeOutput_sortTree_inv h,
    fun _ _ _ _ _ _ _ h₁ h₂ => createBin_timestamp_only h₁ h₂,
    fun t f₀ rest hwf hw => ⟨mergeOutput_head hw, walkRel_head_min hwf hw⟩⟩

/-- Witness for C9: a concrete two-fragment tree in both enumeration orders,
a concrete pair of binary builds at timestamps 1 and 2, and the kept header
of the traversal-first fragment. -/
theorem c9_witness :
    mergeOutput (FSEntry.dir "data"
        [FSEntry.file "b.csv" "HB" ["r2"], FSEntry.file "a.csv" "HA" ["r1"]]) =
      mergeOutput (FSEntry.dir "data"
        [FSEntry.file "a.csv" "HA" ["r1"], FSEntry.file "b.csv" "HB" ["r2"]]) ∧
    ((createBinDisk (fun _ => Except.ok [7, 8, 9]) 3 [["h"], ["x"]] 1).2).length =
      ((createBinDisk (fun _ => Except.ok [7, 8, 9]) 3 [["h"], ["x"]] 2).2).length ∧
    (mergeOutput (FSEntry.dir "data"
        [FSEntry.file "b.csv" "HB" ["r2"], FSEntry.file "a.csv" "HA" ["r1"]])).head? =
      some "HA" := by
  obtain ⟨h1, h2, h3⟩ := c9_merge_determinism
  refine ⟨h1 _ _ rfl, ?_, ?_⟩
  · exact (h2 (fun _ => Except.ok [7, 8, 9]) 3 [["h"], ["x"]] 1 2
      ((createBinDisk (fun _ => Except.ok [7, 8, 9]) 3 [["h"], ["x"]] 1).2)
      ((createBinDisk (fun _ => Except.ok [7, 8, 9]) 3 [["h"], ["x"]] 2).2)
      rfl rfl).1
  · exact (h3 (FSEntry.dir "data"
        [FSEntry.file "b.csv" "HB" ["r2"], FSEntry.file "a.csv" "HA" ["r1"]])
      ⟨["data", "a.csv"], "HA", ["r1"]⟩ [⟨["data", "b.csv"], "HB", ["r2"]⟩]
      (by decide) (by decide)).1

end GenData
